import Mathlib

/-!
Verification development for the Rag repository's retrieval-and-verification
pipeline. The TypeScript sources are shallowly embedded: JavaScript numbers
are idealized as exact rationals (reals where logarithms and square roots
occur), JS `Map`s become insertion-ordered association lists, JS `Array.sort`
(a stable sort) becomes `List.insertionSort` with a descending comparator
(both are stable, hence extensionally equal on a total preorder), and
`async` functions that can throw are modelled in `Except Unit`. External
collaborators (OpenAI embeddings and chat completions, Pinecone index
queries, the BM25 retriever library, the stemmer and stopword packages) are
modelled as oracle parameters, exactly at the call boundary the source uses.
-/

/-- JS truthiness of an optional string: `undefined` and `""` are falsy. -/
def optStrTruthy : Option String → Bool
  | none => false
  | some s => !(s == "")

/-- JS truthiness of an optional number: `undefined` and `0` are falsy. -/
def optNatTruthy : Option Nat → Bool
  | none => false
  | some n => !(n == 0)

/-- JS `a || b` on optional strings: yields `b` whenever `a` is falsy. -/
def jsOrStr (a b : Option String) : Option String :=
  if optStrTruthy a then a else b

deriving instance DecidableEq for Except

section JsMap

variable {K V : Type} [DecidableEq K]

/-- JS `Map.get(k)` read with default `d` (models `map.get(k) || d`). -/
def mapGetD (m : List (K × V)) (k : K) (d : V) : V :=
  match m with
  | [] => d
  | e :: rest => if e.1 = k then e.2 else mapGetD rest k d

/-- JS `Map.get(k)` read returning `undefined` as `none`. -/
def mapGet? (m : List (K × V)) (k : K) : Option V :=
  match m with
  | [] => none
  | e :: rest => if e.1 = k then some e.2 else mapGet? rest k

/-- JS `Map.has(k)`. -/
def mapHas (m : List (K × V)) (k : K) : Bool :=
  match m with
  | [] => false
  | e :: rest => if e.1 = k then true else mapHas rest k

/-- JS `Map.set(k, v)`: updates the entry in place when the key is present
(keeping its position in iteration order), appends it otherwise. -/
def mapInsert (m : List (K × V)) (k : K) (v : V) : List (K × V) :=
  match m with
  | [] => [(k, v)]
  | e :: rest => if e.1 = k then (k, v) :: rest else e :: mapInsert rest k v

/-- JS `Set` built from a list: first occurrences, in insertion order. -/
def uniqueList (l : List K) : List K :=
  l.foldl (fun acc x => if x ∈ acc then acc else acc ++ [x]) []

/-- Keys of an association list are pairwise distinct. -/
def keysNodup : List (K × V) → Prop
  | [] => True
  | e :: rest => mapHas rest e.1 = false ∧ keysNodup rest

theorem mapGetD_mapInsert_self (m : List (K × V)) (k : K) (v : V) (d : V) :
    mapGetD (mapInsert m k v) k d = v := by
  induction m with
  | nil => simp [mapInsert, mapGetD]
  | cons e rest ih =>
    by_cases h : e.1 = k
    · simp [mapInsert, h, mapGetD]
    · simpa [mapInsert, h, mapGetD] using ih

theorem mapGetD_mapInsert_ne (m : List (K × V)) (k k' : K) (v : V) (d : V)
    (h : k' ≠ k) : mapGetD (mapInsert m k v) k' d = mapGetD m k' d := by
  induction m with
  | nil => simp [mapInsert, mapGetD, Ne.symm h]
  | cons e rest ih =>
    by_cases he : e.1 = k
    · rw [show mapInsert (e :: rest) k v = (k, v) :: rest by simp [mapInsert, he]]
      unfold mapGetD
      simp [Ne.symm h, he]
    · rw [show mapInsert (e :: rest) k v = e :: mapInsert rest k v by
        simp [mapInsert, he]]
      unfold mapGetD
      by_cases he' : e.1 = k'
      · simp [he']
      · simpa [he'] using ih

theorem mapHas_mapInsert (m : List (K × V)) (k k' : K) (v : V) :
    mapHas (mapInsert m k v) k' = true ↔ k' = k ∨ mapHas m k' = true := by
  induction m with
  | nil =>
    constructor
    · intro h
      by_cases hk : k' = k
      · exact Or.inl hk
      · simp [mapInsert, mapHas, Ne.symm hk] at h
    · intro h
      rcases h with h | h
      · simp [mapInsert, mapHas, h]
      · simp [mapHas] at h
  | cons e rest ih =>
    by_cases he : e.1 = k
    · rw [show mapInsert (e :: rest) k v = (k, v) :: rest by simp [mapInsert, he]]
      unfold mapHas
      by_cases hk : k = k'
      · simp [hk]
      · have h1 : ¬ (e.1 = k') := fun hc => hk (he ▸ hc)
        have h2 : ¬ (k' = k) := fun hc => hk hc.symm
        simp [hk, h1, h2]
    · rw [show mapInsert (e :: rest) k v = e :: mapInsert rest k v by
        simp [mapInsert, he]]
      unfold mapHas
      by_cases he' : e.1 = k'
      · simp [he']
      · simpa [he'] using ih

theorem keysNodup_mapInsert (m : List (K × V)) (k : K) (v : V)
    (h : keysNodup m) : keysNodup (mapInsert m k v) := by
  induction m with
  | nil => simp [mapInsert, keysNodup, mapHas]
  | cons e rest ih =>
    obtain ⟨h1, h2⟩ := h
    by_cases he : e.1 = k
    · rw [show mapInsert (e :: rest) k v = (k, v) :: rest by simp [mapInsert, he]]
      exact ⟨by simpa [he] using h1, h2⟩
    · rw [show mapInsert (e :: rest) k v = e :: mapInsert rest k v by
        simp [mapInsert, he]]
      refine ⟨?_, ih h2⟩
      by_contra hc
      have hc' : mapHas (mapInsert rest k v) e.1 = true := by
        revert hc
        cases mapHas (mapInsert rest k v) e.1 <;> simp
      rcases (mapHas_mapInsert rest k e.1 v).mp hc' with h3 | h3
      · exact he h3
      · rw [h1] at h3
        cases h3

theorem mem_mapInsert (m : List (K × V)) (k : K) (v : V) (e : K × V)
    (h : e ∈ mapInsert m k v) : e = (k, v) ∨ e ∈ m := by
  induction m with
  | nil => simpa [mapInsert] using h
  | cons e' rest ih =>
    by_cases he : e'.1 = k
    · rw [show mapInsert (e' :: rest) k v = (k, v) :: rest by simp [mapInsert, he]] at h
      rcases List.mem_cons.mp h with h | h
      · exact Or.inl h
      · exact Or.inr (List.mem_cons.mpr (Or.inr h))
    · rw [show mapInsert (e' :: rest) k v = e' :: mapInsert rest k v by
        simp [mapInsert, he]] at h
      rcases List.mem_cons.mp h with h | h
      · exact Or.inr (List.mem_cons.mpr (Or.inl h))
      · rcases ih h with h1 | h1
        · exact Or.inl h1
        · exact Or.inr (List.mem_cons.mpr (Or.inr h1))

theorem getD_mem_of_mapHas (m : List (K × V)) (k : K) (d : V)
    (h : mapHas m k = true) : (k, mapGetD m k d) ∈ m := by
  induction m with
  | nil => simp [mapHas] at h
  | cons e rest ih =>
    by_cases he : e.1 = k
    · rw [show mapGetD (e :: rest) k d = e.2 by simp [mapGetD, he]]
      exact List.mem_cons.mpr (Or.inl (by rw [← he]))
    · rw [show mapGetD (e :: rest) k d = mapGetD rest k d by simp [mapGetD, he]]
      refine List.mem_cons.mpr (Or.inr (ih ?_))
      simpa [mapHas, he] using h

theorem mapHas_of_mem (m : List (K × V)) (k : K) (v : V)
    (h : (k, v) ∈ m) : mapHas m k = true := by
  induction m with
  | nil => simp at h
  | cons e rest ih =>
    rcases List.mem_cons.mp h with hm | hm
    · simp [← hm, mapHas]
    · by_cases he : e.1 = k
      · simp [mapHas, he]
      · simpa [mapHas, he] using ih hm

theorem getD_of_mem_keysNodup (m : List (K × V)) (k : K) (v : V) (d : V)
    (hk : keysNodup m) (h : (k, v) ∈ m) : mapGetD m k d = v := by
  induction m with
  | nil => simp at h
  | cons e rest ih =>
    obtain ⟨h1, h2⟩ := hk
    rcases List.mem_cons.mp h with hm | hm
    · simp [← hm, mapGetD]
    · have hne : e.1 ≠ k := by
        intro he
        have hhas : mapHas rest e.1 = true := he ▸ mapHas_of_mem rest k v hm
        rw [h1] at hhas
        cases hhas
      simp [mapGetD, hne]
      exact ih h2 hm

theorem mem_uniqueList (l : List K) (x : K) : x ∈ uniqueList l ↔ x ∈ l := by
  have general : ∀ (l acc : List K) (x : K),
      x ∈ l.foldl (fun acc x => if x ∈ acc then acc else acc ++ [x]) acc ↔
        x ∈ acc ∨ x ∈ l := by
    intro l
    induction l with
    | nil => simp
    | cons h t ih =>
      intro acc x
      by_cases hmem : h ∈ acc
      · rw [List.foldl_cons]
        simp only [if_pos hmem]
        rw [ih]
        simp only [List.mem_cons]
        constructor
        · rintro (h1 | h1)
          · exact Or.inl h1
          · exact Or.inr (Or.inr h1)
        · rintro (h1 | h1 | h1)
          · exact Or.inl h1
          · exact Or.inl (h1 ▸ hmem)
          · exact Or.inr h1
      · rw [List.foldl_cons]
        simp only [if_neg hmem]
        rw [ih]
        simp only [List.mem_append, List.mem_singleton, List.mem_cons]
        tauto
  simpa [uniqueList] using general l [] x

theorem nodup_uniqueList (l : List K) : (uniqueList l).Nodup := by
  have general : ∀ (l acc : List K), acc.Nodup →
      (l.foldl (fun acc x => if x ∈ acc then acc else acc ++ [x]) acc).Nodup := by
    intro l
    induction l with
    | nil => intro acc h; simpa using h
    | cons h t ih =>
      intro acc hacc
      by_cases hmem : h ∈ acc
      · rw [List.foldl_cons]
        simp only [if_pos hmem]
        exact ih acc hacc
      · rw [List.foldl_cons]
        simp only [if_neg hmem]
        refine ih (acc ++ [h]) ?_
        simp [List.nodup_append, hacc, hmem]
  exact general l [] (by simp)

end JsMap

section DescSort

variable {α : Type}

/-- Descending comparison by a rational-valued key: the relation underlying a
JS stable `Array.sort((a, b) => key(b) - key(a))`. -/
def descBy (f : α → ℚ) : α → α → Prop := fun a b => f b ≤ f a

instance (f : α → ℚ) : DecidableRel (descBy f) := fun a b =>
  inferInstanceAs (Decidable (f b ≤ f a))

instance (f : α → ℚ) : IsTotal α (descBy f) := ⟨fun a b => le_total (f b) (f a)⟩

instance (f : α → ℚ) : IsTrans α (descBy f) := ⟨fun _ _ _ h1 h2 => le_trans h2 h1⟩

/-- JS `array.sort((a, b) => key(b) - key(a))`: stable sort, descending by
`key`. Insertion sort is stable, so it is extensionally the same function. -/
def sortDescBy (f : α → ℚ) (l : List α) : List α := l.insertionSort (descBy f)

theorem sortDescBy_sorted (f : α → ℚ) (l : List α) :
    (sortDescBy f l).Sorted (descBy f) :=
  List.sorted_insertionSort (descBy f) l

theorem sortDescBy_perm (f : α → ℚ) (l : List α) : (sortDescBy f l).Perm l :=
  List.perm_insertionSort (descBy f) l

theorem mem_sortDescBy (f : α → ℚ) (l : List α) (x : α) :
    x ∈ sortDescBy f l ↔ x ∈ l :=
  (sortDescBy_perm f l).mem_iff

/-- Two distinct members of a list occur in one of the two relative orders. -/
theorem pair_sublist_of_mem (l : List α) (a b : α) (ha : a ∈ l) (hb : b ∈ l)
    (hne : a ≠ b) : [a, b].Sublist l ∨ [b, a].Sublist l := by
  induction l with
  | nil => simp at ha
  | cons c t ih =>
    by_cases hac : a = c
    · subst hac
      have hbt : b ∈ t := by
        rcases List.mem_cons.mp hb with h | h
        · exact absurd h.symm hne
        · exact h
      exact Or.inl (List.Sublist.cons₂ a (List.singleton_sublist.mpr hbt))
    · by_cases hbc : b = c
      · subst hbc
        have hat : a ∈ t := by
          rcases List.mem_cons.mp ha with h | h
          · exact absurd h hac
          · exact h
        exact Or.inr (List.Sublist.cons₂ b (List.singleton_sublist.mpr hat))
      · have hat : a ∈ t := by
          rcases List.mem_cons.mp ha with h | h
          · exact absurd h hac
          · exact h
        have hbt : b ∈ t := by
          rcases List.mem_cons.mp hb with h | h
          · exact absurd h hbc
          · exact h
        rcases ih hat hbt with h | h
        · exact Or.inl (h.cons c)
        · exact Or.inr (h.cons c)

/-- In a list sorted descending by `f`, an element with strictly larger key
precedes one with a strictly smaller key. -/
theorem sorted_precedes (f : α → ℚ) (l : List α) (a b : α)
    (hs : l.Sorted (descBy f)) (ha : a ∈ l) (hb : b ∈ l) (hne : a ≠ b)
    (hlt : f b < f a) : [a, b].Sublist l := by
  rcases pair_sublist_of_mem l a b ha hb hne with h | h
  · exact h
  · exfalso
    have := (hs.sublist h :)
    simp [descBy] at this
    exact absurd this (not_le.mpr hlt)

end DescSort

/-! ## Data model

`ChunkMetadata` (src/backend/src/types/index.ts) carries the fields the
retrieval pipeline reads. Fields that JS code may find `undefined` are
`Option`s; Pinecone match metadata reuses the same record with the stored
`text` payload. -/

structure ChunkMetadata where
  source : Option String := none
  id : Option String := none
  fileName : Option String := none
  chunkType : String := ""
  parentId : Option String := none
  clientId : Option Nat := none
  text : Option String := none
  deriving DecidableEq

/-- A LangChain `Document`: a text payload plus metadata. -/
structure Doc where
  pageContent : String
  metadata : ChunkMetadata
  deriving DecidableEq

/-- The document key used by reciprocal rank fusion and result merging:
`doc.metadata.source || doc.metadata.id`. -/
def Doc.docId (d : Doc) : Option String :=
  jsOrStr d.metadata.source d.metadata.id

/-! ## Sparse Embedding Generator (`SparseEmbeddingGenerator`, part_016)

The stemmer and stopword packages are external; `preprocess` stands for the
whole `preprocessText` pipeline (lowercase, strip punctuation, tokenize,
drop short tokens, remove stopwords, stem) and is passed as a parameter. -/

structure SparseGen where
  vocabulary : List (String × Nat)
  documentFrequencies : List (String × Nat)
  totalDocuments : Nat
  deriving DecidableEq

/-- Per-document term presence counting of `buildVocabulary`: each document
contributes 1 per distinct token (`new Set(tokens)`). -/
def countDocumentFrequencies (preprocess : String → List String)
    (documents : List String) : List (String × Nat) :=
  documents.foldl
    (fun m doc =>
      (uniqueList (preprocess doc)).foldl
        (fun m token => mapInsert m token (mapGetD m token 0 + 1)) m)
    []

/-- `Math.max(2, Math.floor(documents.length * 0.01))`; in exact arithmetic
the floor of `n * 0.01` is `n / 100` on naturals. -/
def vocabMinFreq (n : Nat) : Nat := max 2 (n / 100)

/-- `Math.floor(documents.length * 0.8)` = `4 * n / 5` on naturals. -/
def vocabMaxFreq (n : Nat) : Nat := n * 4 / 5

/-- `SparseEmbeddingGenerator.buildVocabulary` (part_016 lines 31-79): count
per-document term presence, then keep the terms whose document frequency
lies in `[minFreq, maxFreq]`, assigning dense indexes in encounter order. -/
def buildVocabulary (preprocess : String → List String)
    (documents : List String) : SparseGen :=
  let termCounts := countDocumentFrequencies preprocess documents
  let minFreq := vocabMinFreq documents.length
  let maxFreq := vocabMaxFreq documents.length
  let accepted := termCounts.filter (fun tf => decide (minFreq ≤ tf.2 ∧ tf.2 ≤ maxFreq))
  { vocabulary := accepted.enum.map (fun itf => (itf.2.1, itf.1)),
    documentFrequencies := accepted,
    totalDocuments := documents.length }

/-- `this.vocabulary.has(term)`. -/
def SparseGen.hasTerm (g : SparseGen) (term : String) : Bool :=
  mapHas g.vocabulary term

/-- The number of documents whose preprocessed token list contains `term` —
the specification-level notion of document frequency. -/
def documentFrequency (preprocess : String → List String)
    (documents : List String) (term : String) : Nat :=
  (documents.filter (fun doc => decide (term ∈ preprocess doc))).length

section VocabLemmas

theorem getD_of_not_mapHas {K V : Type} [DecidableEq K]
    (m : List (K × V)) (k : K) (d : V) (h : mapHas m k = false) :
    mapGetD m k d = d := by
  induction m with
  | nil => simp [mapGetD]
  | cons e rest ih =>
    by_cases he : e.1 = k
    · simp [mapHas, he] at h
    · simp [mapGetD, he]
      exact ih (by simpa [mapHas, he] using h)

theorem mapHas_iff_mem_keys {K V : Type} [DecidableEq K]
    (m : List (K × V)) (k : K) :
    mapHas m k = true ↔ k ∈ m.map Prod.fst := by
  induction m with
  | nil => simp [mapHas]
  | cons e rest ih =>
    by_cases he : e.1 = k
    · simp [mapHas, he]
    · rw [show mapHas (e :: rest) k = mapHas rest k by simp [mapHas, he]]
      rw [ih]
      simp only [List.map_cons, List.mem_cons]
      constructor
      · exact fun h => Or.inr h
      · rintro (h | h)
        · exact absurd h.symm he
        · exact h

/-- One `for (const token of uniqueTokens)` pass over a token list. -/
def bumpAll (tokens : List String) (m : List (String × Nat)) :
    List (String × Nat) :=
  tokens.foldl (fun m token => mapInsert m token (mapGetD m token 0 + 1)) m

theorem bumpAll_getD_not_mem (tokens : List String) (m : List (String × Nat))
    (t : String) (h : t ∉ tokens) :
    mapGetD (bumpAll tokens m) t 0 = mapGetD m t 0 := by
  induction tokens generalizing m with
  | nil => simp [bumpAll]
  | cons tok rest ih =>
    have hne : t ≠ tok := fun hc => h (hc ▸ List.mem_cons_self tok rest)
    have hrest : t ∉ rest := fun hc => h (List.mem_cons.mpr (Or.inr hc))
    simp only [bumpAll, List.foldl_cons]
    rw [show (List.foldl (fun m token => mapInsert m token (mapGetD m token 0 + 1))
      (mapInsert m tok (mapGetD m tok 0 + 1)) rest) =
      bumpAll rest (mapInsert m tok (mapGetD m tok 0 + 1)) from rfl]
    rw [ih _ hrest]
    exact mapGetD_mapInsert_ne m tok t _ 0 hne

theorem bumpAll_getD (tokens : List String) (m : List (String × Nat))
    (t : String) (hnd : tokens.Nodup) :
    mapGetD (bumpAll tokens m) t 0 =
      mapGetD m t 0 + (if t ∈ tokens then 1 else 0) := by
  induction tokens generalizing m with
  | nil => simp [bumpAll]
  | cons tok rest ih =>
    simp only [List.nodup_cons] at hnd
    simp only [bumpAll, List.foldl_cons]
    rw [show (List.foldl (fun m token => mapInsert m token (mapGetD m token 0 + 1))
      (mapInsert m tok (mapGetD m tok 0 + 1)) rest) =
      bumpAll rest (mapInsert m tok (mapGetD m tok 0 + 1)) from rfl]
    by_cases ht : t = tok
    · subst ht
      rw [bumpAll_getD_not_mem rest _ t hnd.1]
      rw [mapGetD_mapInsert_self]
      simp
    · rw [ih _ hnd.2]
      rw [mapGetD_mapInsert_ne m tok t _ 0 ht]
      simp [ht]

theorem bumpAll_mapHas (tokens : List String) (m : List (String × Nat))
    (t : String) :
    mapHas (bumpAll tokens m) t = true ↔ mapHas m t = true ∨ t ∈ tokens := by
  induction tokens generalizing m with
  | nil => simp [bumpAll]
  | cons tok rest ih =>
    simp only [bumpAll, List.foldl_cons]
    rw [show (List.foldl (fun m token => mapInsert m token (mapGetD m token 0 + 1))
      (mapInsert m tok (mapGetD m tok 0 + 1)) rest) =
      bumpAll rest (mapInsert m tok (mapGetD m tok 0 + 1)) from rfl]
    rw [ih]
    rw [mapHas_mapInsert]
    simp only [List.mem_cons]
    tauto

theorem bumpAll_keysNodup (tokens : List String) (m : List (String × Nat))
    (h : keysNodup m) : keysNodup (bumpAll tokens m) := by
  induction tokens generalizing m with
  | nil => simpa [bumpAll]
  | cons tok rest ih =>
    simp only [bumpAll, List.foldl_cons]
    exact ih _ (keysNodup_mapInsert m tok _ h)

theorem countDocumentFrequencies_getD (preprocess : String → List String)
    (documents : List String) (t : String) :
    mapGetD (countDocumentFrequencies preprocess documents) t 0 =
      documentFrequency preprocess documents t := by
  have general : ∀ (docs : List String) (m : List (String × Nat)),
      mapGetD (docs.foldl
        (fun m doc => bumpAll (uniqueList (preprocess doc)) m) m) t 0 =
        mapGetD m t 0 + documentFrequency preprocess docs t := by
    intro docs
    induction docs with
    | nil => simp [documentFrequency]
    | cons d rest ih =>
      intro m
      simp only [List.foldl_cons]
      rw [ih]
      rw [bumpAll_getD _ _ _ (nodup_uniqueList _)]
      have hdf : documentFrequency preprocess (d :: rest) t =
          (if t ∈ preprocess d then 1 else 0) +
            documentFrequency preprocess rest t := by
        simp only [documentFrequency, List.filter_cons]
        by_cases hd : t ∈ preprocess d
        · simp [hd, Nat.add_comm]
        · simp [hd]
      have huniq : (if t ∈ uniqueList (preprocess d) then (1 : Nat) else 0) =
          (if t ∈ preprocess d then 1 else 0) := by
        by_cases hd : t ∈ preprocess d
        · simp [hd, (mem_uniqueList _ _).mpr hd]
        · have hnu : t ∉ uniqueList (preprocess d) :=
            fun hc => hd ((mem_uniqueList _ _).mp hc)
          simp [hd, hnu]
      rw [hdf, huniq, Nat.add_assoc]
  simpa [countDocumentFrequencies, bumpAll, mapGetD] using general documents []

theorem countDocumentFrequencies_mapHas (preprocess : String → List String)
    (documents : List String) (t : String) :
    mapHas (countDocumentFrequencies preprocess documents) t = true ↔
      0 < documentFrequency preprocess documents t := by
  have general : ∀ (docs : List String) (m : List (String × Nat)),
      mapHas (docs.foldl
        (fun m doc => bumpAll (uniqueList (preprocess doc)) m) m) t = true ↔
        mapHas m t = true ∨ ∃ d ∈ docs, t ∈ preprocess d := by
    intro docs
    induction docs with
    | nil => simp
    | cons d rest ih =>
      intro m
      simp only [List.foldl_cons]
      rw [ih, bumpAll_mapHas, mem_uniqueList]
      simp only [List.mem_cons]
      constructor
      · rintro ((h | h) | h)
        · exact Or.inl h
        · exact Or.inr ⟨d, Or.inl rfl, h⟩
        · rcases h with ⟨d', hd', ht'⟩
          exact Or.inr ⟨d', Or.inr hd', ht'⟩
      · rintro (h | ⟨d', hd' | hd', ht'⟩)
        · exact Or.inl (Or.inl h)
        · exact Or.inl (Or.inr (hd' ▸ ht'))
        · exact Or.inr ⟨d', hd', ht'⟩
  rw [show countDocumentFrequencies preprocess documents =
    documents.foldl (fun m doc => bumpAll (uniqueList (preprocess doc)) m) []
    from rfl]
  rw [general documents []]
  simp only [mapHas, Bool.false_eq_true, false_or]
  constructor
  · rintro ⟨d, hd, ht⟩
    have hmem : d ∈ documents.filter (fun doc => decide (t ∈ preprocess doc)) :=
      List.mem_filter.mpr ⟨hd, by simpa using ht⟩
    have hne : documents.filter (fun doc => decide (t ∈ preprocess doc)) ≠ [] :=
      fun hc => by simp [hc] at hmem
    simpa [documentFrequency] using List.length_pos.mpr hne
  · intro h
    have hne : documents.filter (fun doc => decide (t ∈ preprocess doc)) ≠ [] :=
      List.length_pos.mp (by simpa [documentFrequency] using h)
    rcases List.exists_mem_of_ne_nil _ hne with ⟨d, hd⟩
    have hmf := List.mem_filter.mp hd
    exact ⟨d, hmf.1, by simpa using hmf.2⟩

theorem countDocumentFrequencies_keysNodup (preprocess : String → List String)
    (documents : List String) :
    keysNodup (countDocumentFrequencies preprocess documents) := by
  have general : ∀ (docs : List String) (m : List (String × Nat)),
      keysNodup m → keysNodup (docs.foldl
        (fun m doc => bumpAll (uniqueList (preprocess doc)) m) m) := by
    intro docs
    induction docs with
    | nil => intro m h; simpa using h
    | cons d rest ih =>
      intro m h
      simp only [List.foldl_cons]
      exact ih _ (bumpAll_keysNodup _ _ h)
  exact general documents [] trivial

end VocabLemmas

theorem enumFrom_map_snd_fst {A B : Type} :
    ∀ (n : Nat) (l : List (A × B)),
      (List.enumFrom n l).map (fun itf => itf.2.1) = l.map Prod.fst := by
  intro n l
  induction l generalizing n with
  | nil => simp
  | cons e rest ih => simp [List.enumFrom, ih]

theorem buildVocabulary_keys_eq (preprocess : String → List String)
    (documents : List String) :
    (buildVocabulary preprocess documents).vocabulary.map Prod.fst =
      ((countDocumentFrequencies preprocess documents).filter
        (fun tf => decide (vocabMinFreq documents.length ≤ tf.2 ∧
          tf.2 ≤ vocabMaxFreq documents.length))).map Prod.fst := by
  show ((List.enum _).map _).map Prod.fst = _
  rw [List.map_map]
  exact enumFrom_map_snd_fst 0 _

/-- Tokenizer used for the concrete corpus scenarios: each document is one
token. -/
def singleTokenizer : String → List String := fun s => [s]

/-- 100 documents, 60 of which contain the term "compliance". -/
def corpusSixty : List String :=
  List.replicate 60 "compliance" ++ List.replicate 40 "filler"

/-- 100 documents, 99 of which contain the term "common". -/
def corpusNinetyNine : List String :=
  List.replicate 99 "common" ++ ["rare"]

set_option maxRecDepth 40000 in
/-- C5: `buildVocabulary` over a corpus of `n` texts retains exactly the
terms whose per-document frequency `df` satisfies
`max(2, floor(0.01 n)) ≤ df ≤ floor(0.8 n)`; in particular, for `n = 100` a
term appearing in 60 documents is retained and a term appearing in 99
documents is excluded. -/
theorem buildVocabulary_retains_iff :
    (∀ (preprocess : String → List String) (documents : List String)
        (term : String),
      (buildVocabulary preprocess documents).hasTerm term = true ↔
        vocabMinFreq documents.length ≤
            documentFrequency preprocess documents term ∧
          documentFrequency preprocess documents term ≤
            vocabMaxFreq documents.length) ∧
    (buildVocabulary singleTokenizer corpusSixty).hasTerm "compliance" = true ∧
    (buildVocabulary singleTokenizer corpusNinetyNine).hasTerm "common" = false := by
  refine ⟨?_, by decide, by decide⟩
  intro preprocess documents term
  unfold SparseGen.hasTerm
  rw [mapHas_iff_mem_keys, buildVocabulary_keys_eq]
  constructor
  · intro h
    rcases List.mem_map.mp h with ⟨e, he, hek⟩
    have hf := List.mem_filter.mp he
    have hcond := of_decide_eq_true hf.2
    have hkn := countDocumentFrequencies_keysNodup preprocess documents
    have hterm : (term, e.2) ∈ countDocumentFrequencies preprocess documents := by
      rcases e with ⟨t, c⟩
      cases hek
      exact hf.1
    have hgd : mapGetD (countDocumentFrequencies preprocess documents) term 0 = e.2 :=
      getD_of_mem_keysNodup _ _ _ _ hkn hterm
    rw [countDocumentFrequencies_getD] at hgd
    rw [hgd]
    exact hcond
  · rintro ⟨h1, h2⟩
    have h2le : 2 ≤ vocabMinFreq documents.length := le_max_left _ _
    have hpos : 0 < documentFrequency preprocess documents term := by omega
    have hhas := (countDocumentFrequencies_mapHas preprocess documents term).mpr hpos
    have hmem := getD_mem_of_mapHas _ term 0 hhas
    rw [countDocumentFrequencies_getD] at hmem
    refine List.mem_map.mpr
      ⟨(term, documentFrequency preprocess documents term),
        List.mem_filter.mpr ⟨hmem, ?_⟩, rfl⟩
    exact decide_eq_true ⟨h1, h2⟩

/-! ## Sparse embedding (`generateSparseEmbedding`, part_016 lines 81-120)

TF-IDF weights involve logarithms, so this part of the embedding lives in
`ℝ`; the JS floating-point arithmetic is idealized as exact real
arithmetic (the claim under scrutiny is stated up to floating-point
tolerance). -/

/-- Term frequencies of the input text: a JS `Map` built in one pass. -/
def countTokens (tokens : List String) : List (String × Nat) :=
  tokens.foldl (fun m token => mapInsert m token (mapGetD m token 0 + 1)) []

/-- JS `this.documentFrequencies.get(term) || 1` (`0` is falsy). -/
def dfOr1 (g : SparseGen) (term : String) : Nat :=
  match mapGet? g.documentFrequencies term with
  | none => 1
  | some d => if d = 0 then 1 else d

/-- `Math.log(1 + tf) * Math.log(totalDocuments / df)`. -/
noncomputable def tfidfScoreOf (g : SparseGen) (term : String) (tf : Nat) : ℝ :=
  Real.log (1 + (tf : ℝ)) *
    Real.log ((g.totalDocuments : ℝ) / (dfOr1 g term : ℝ))

structure SparseVector where
  indices : List Nat
  values : List ℝ

/-- One iteration of the TF-IDF loop of `generateSparseEmbedding`: a
vocabulary term whose TF-IDF score exceeds the sparsity threshold `0.01`
yields an `(index, tfidfScore)` pair. -/
noncomputable def tfidfEntryOf (g : SparseGen) (tf : String × Nat) :
    Option (Nat × ℝ) :=
  match mapGet? g.vocabulary tf.1 with
  | none => none
  | some index =>
      if (1 : ℝ) / 100 < tfidfScoreOf g tf.1 tf.2 then
        some (index, tfidfScoreOf g tf.1 tf.2)
      else none

/-- The `(index, tfidfScore)` pairs pushed by the loop of
`generateSparseEmbedding`. -/
noncomputable def tfidfEntries (g : SparseGen)
    (preprocess : String → List String) (text : String) : List (Nat × ℝ) :=
  (countTokens (preprocess text)).filterMap (tfidfEntryOf g)

/-- `SparseEmbeddingGenerator.generateSparseEmbedding`: TF-IDF scores of the
vocabulary terms of the text, then L2 normalization when the magnitude is
positive. -/
noncomputable def generateSparseEmbedding (g : SparseGen)
    (preprocess : String → List String) (text : String) : SparseVector :=
  let entries := tfidfEntries g preprocess text
  let values := entries.map (·.2)
  let magnitude := Real.sqrt (values.foldl (fun sum v => sum + v * v) 0)
  if 0 < magnitude then
    ⟨entries.map (·.1), values.map (fun v => v / magnitude)⟩
  else
    ⟨entries.map (·.1), values⟩

theorem tfidf_values_pos (g : SparseGen) (preprocess : String → List String)
    (text : String) (v : ℝ)
    (h : v ∈ (tfidfEntries g preprocess text).map (·.2)) : (1 : ℝ) / 100 < v := by
  rcases List.mem_map.mp h with ⟨e, he, hev⟩
  rcases List.mem_filterMap.mp he with ⟨tf, _, hf⟩
  unfold tfidfEntryOf at hf
  revert hf
  cases hv : mapGet? g.vocabulary tf.1 with
  | none => intro hf; cases hf
  | some index =>
    intro hf
    have hf' : (if (1 : ℝ) / 100 < tfidfScoreOf g tf.1 tf.2 then
        some (index, tfidfScoreOf g tf.1 tf.2) else none) = some e := hf
    by_cases hif : (1 : ℝ) / 100 < tfidfScoreOf g tf.1 tf.2
    · rw [if_pos hif] at hf'
      cases hf'
      rw [← hev]
      exact hif
    · rw [if_neg hif] at hf'
      cases hf'

theorem foldl_add_sq (l : List ℝ) :
    l.foldl (fun sum v => sum + v * v) 0 = (l.map (fun v => v ^ 2)).sum := by
  have general : ∀ (l : List ℝ) (a : ℝ),
      l.foldl (fun sum v => sum + v * v) a = a + (l.map (fun v => v ^ 2)).sum := by
    intro l
    induction l with
    | nil => simp
    | cons v rest ih =>
      intro a
      simp only [List.foldl_cons, List.map_cons, List.sum_cons]
      rw [ih]
      ring_nf
      rw [pow_two]
      ring
  simpa using general l 0

theorem generateSparseEmbedding_values (g : SparseGen)
    (preprocess : String → List String) (text : String) :
    (generateSparseEmbedding g preprocess text).values =
      if 0 < Real.sqrt (((tfidfEntries g preprocess text).map (·.2)).foldl
          (fun sum v => sum + v * v) 0)
      then ((tfidfEntries g preprocess text).map (·.2)).map
        (fun v => v / Real.sqrt (((tfidfEntries g preprocess text).map (·.2)).foldl
          (fun sum v => sum + v * v) 0))
      else (tfidfEntries g preprocess text).map (·.2) := by
  unfold generateSparseEmbedding
  rw [apply_ite SparseVector.values]

theorem generateSparseEmbedding_values_length (g : SparseGen)
    (preprocess : String → List String) (text : String) :
    (generateSparseEmbedding g preprocess text).values.length =
      (tfidfEntries g preprocess text).length := by
  rw [generateSparseEmbedding_values]
  split <;> simp

/-- C7: whenever `generateSparseEmbedding` returns at least one weight, the
sum of the squares of the weights is exactly 1 (idealizing floating point as
real arithmetic): the surviving weights are L2-normalized. -/
theorem generateSparseEmbedding_unit_norm (g : SparseGen)
    (preprocess : String → List String) (text : String)
    (h : (generateSparseEmbedding g preprocess text).values ≠ []) :
    (((generateSparseEmbedding g preprocess text).values.map
      (fun w => w ^ 2)).sum) = 1 := by
  have hvals := generateSparseEmbedding_values g preprocess text
  set vs := (tfidfEntries g preprocess text).map (·.2) with hvs
  by_cases hnil : vs = []
  · exfalso
    apply h
    rw [hvals, hnil]
    simp
  · have hS : vs.foldl (fun sum v => sum + v * v) 0 = (vs.map (fun v => v ^ 2)).sum :=
      foldl_add_sq vs
    have hpos : ∀ x ∈ vs.map (fun v => v ^ 2), (0 : ℝ) < x := by
      intro x hx
      rcases List.mem_map.mp hx with ⟨v, hv, hvx⟩
      have h1 : (1 : ℝ) / 100 < v := tfidf_values_pos g preprocess text v (hvs ▸ hv)
      have : (0 : ℝ) < v := lt_trans (by norm_num) h1
      rw [← hvx]
      positivity
    have hSpos : (0 : ℝ) < (vs.map (fun v => v ^ 2)).sum :=
      List.sum_pos _ hpos (by simpa using hnil)
    have hmpos : 0 < Real.sqrt (vs.foldl (fun sum v => sum + v * v) 0) := by
      rw [hS]
      exact Real.sqrt_pos.mpr hSpos
    rw [hvals, if_pos hmpos]
    set m := Real.sqrt (vs.foldl (fun sum v => sum + v * v) 0) with hm
    have hm2 : m ^ 2 = (vs.map (fun v => v ^ 2)).sum := by
      rw [hm, hS]
      exact Real.sq_sqrt (le_of_lt hSpos)
    rw [List.map_map]
    have hfun : ((fun w => w ^ 2) ∘ fun v => v / m) =
        fun v => v ^ 2 * (1 / m ^ 2) := by
      funext v
      have hmne : m ≠ 0 := ne_of_gt hmpos
      field_simp
    rw [hfun]
    rw [List.sum_map_mul_right]
    rw [hm2]
    field_simp

/-- Concrete generator state for the C7 witness: one vocabulary term with
document frequency 1 out of 3 documents. -/
def polGen : SparseGen :=
  { vocabulary := [("pol", 0)],
    documentFrequencies := [("pol", 1)],
    totalDocuments := 3 }

/-- Concrete tokenizer for the C7 witness. -/
def polTokenizer : String → List String := fun _ => ["pol"]

theorem polScore_gt : (1 : ℝ) / 100 < tfidfScoreOf polGen "pol" 1 := by
  have hlog2 : (0.6931471803 : ℝ) < Real.log 2 := Real.log_two_gt_d9
  have hlog3 : (1 : ℝ) < Real.log 3 := by
    rw [Real.lt_log_iff_exp_lt (by norm_num : (0 : ℝ) < 3)]
    calc Real.exp 1 < 2.7182818286 := Real.exp_one_lt_d9
      _ < 3 := by norm_num
  have hscore : tfidfScoreOf polGen "pol" 1 = Real.log 2 * Real.log 3 := by
    unfold tfidfScoreOf
    norm_num [polGen, dfOr1, mapGet?]
  rw [hscore]
  have h1 : (0.6931471803 : ℝ) * 1 < Real.log 2 * Real.log 3 :=
    mul_lt_mul hlog2 (le_of_lt hlog3) (by norm_num)
      (le_of_lt (lt_trans (by norm_num) hlog2))
  nlinarith

theorem polEntries :
    tfidfEntries polGen polTokenizer "query" =
      [(0, tfidfScoreOf polGen "pol" 1)] := by
  have hct : countTokens (polTokenizer "query") = [("pol", 1)] := by decide
  unfold tfidfEntries
  rw [hct]
  have hone : tfidfEntryOf polGen ("pol", 1) =
      some (0, tfidfScoreOf polGen "pol" 1) := by
    have hred : tfidfEntryOf polGen ("pol", 1) =
        (if (1 : ℝ) / 100 < tfidfScoreOf polGen "pol" 1 then
          some (0, tfidfScoreOf polGen "pol" 1) else none) := rfl
    rw [hred, if_pos polScore_gt]
  simp only [List.filterMap_cons, List.filterMap_nil, hone]

/-- Witness for C7: the concrete one-term embedding is non-empty and its
squared weights sum to 1. -/
theorem generateSparseEmbedding_unit_norm_witness :
    (generateSparseEmbedding polGen polTokenizer "query").values ≠ [] ∧
      (((generateSparseEmbedding polGen polTokenizer "query").values.map
        (fun w => w ^ 2)).sum) = 1 := by
  have hne : (generateSparseEmbedding polGen polTokenizer "query").values ≠ [] := by
    have hlen := generateSparseEmbedding_values_length polGen polTokenizer "query"
    rw [polEntries] at hlen
    intro hc
    rw [hc] at hlen
    simp at hlen
  exact ⟨hne, generateSparseEmbedding_unit_norm polGen polTokenizer "query" hne⟩

/-! ## Reciprocal Rank Fusion (`reciprocalRankFusion`, part_008 lines 19-47
and retrieval.ts lines 18-45) -/

structure HybridSearchResult where
  document : Doc
  semanticScore : ℚ
  bm25Score : ℚ
  combinedScore : ℚ
  deriving DecidableEq

/-- One `forEach` accumulation pass of `reciprocalRankFusion`: position
`index` of a ranked list contributes `1 / (k + index + 1)` to the
accumulated score of that result's document key. -/
def rrfFold (k : ℚ) (init : List (Option String × ℚ))
    (ranked : List HybridSearchResult) : List (Option String × ℚ) :=
  (ranked.enum).foldl
    (fun m ir =>
      mapInsert m ir.2.document.docId
        (mapGetD m ir.2.document.docId 0 + 1 / (k + ir.1 + 1)))
    init

/-- The `rrfScores` map after both accumulation passes. -/
def rrfScores (semanticRanked bm25Ranked : List HybridSearchResult)
    (k : ℚ) : List (Option String × ℚ) :=
  rrfFold k (rrfFold k [] semanticRanked) bm25Ranked

/-- `Array.from(rrfScores.entries()).sort(([,a],[,b]) => b - a)`: the fused
ranking of document keys by total reciprocal-rank score, descending. -/
def fusedRanking (semanticRanked bm25Ranked : List HybridSearchResult)
    (k : ℚ) : List (Option String × ℚ) :=
  sortDescBy (fun e => e.2) (rrfScores semanticRanked bm25Ranked k)

/-- `reciprocalRankFusion` (part_008): rank by semantic score descending and
by BM25 score descending, accumulate reciprocal-rank scores, sort keys by
total score, keep the top 5, and map each key back to its first matching
document. -/
def reciprocalRankFusion (results : List HybridSearchResult)
    (k : ℚ := 60) : List Doc :=
  let semanticRanked := sortDescBy (fun r => r.semanticScore) results
  let bm25Ranked := sortDescBy (fun r => r.bm25Score) results
  ((fusedRanking semanticRanked bm25Ranked k).take 5).filterMap
    (fun e => (results.find? (fun r => r.document.docId == e.1)).map (·.document))

/-- Total contribution of one ranked (already position-indexed) list to the
accumulated score of key `d`. -/
def rrfContrib (k : ℚ) (prs : List (Nat × HybridSearchResult))
    (d : Option String) : ℚ :=
  ((prs.filter (fun ir => decide (ir.2.document.docId = d))).map
    (fun ir => 1 / (k + ir.1 + 1))).sum

theorem rrfFoldPairs_getD (k : ℚ) (prs : List (Nat × HybridSearchResult))
    (m : List (Option String × ℚ)) (d : Option String) :
    mapGetD (prs.foldl
      (fun m ir => mapInsert m ir.2.document.docId
        (mapGetD m ir.2.document.docId 0 + 1 / (k + ir.1 + 1))) m) d 0 =
      mapGetD m d 0 + rrfContrib k prs d := by
  induction prs generalizing m with
  | nil => simp [rrfContrib]
  | cons ir rest ih =>
    simp only [List.foldl_cons]
    rw [ih]
    by_cases hd : ir.2.document.docId = d
    · rw [hd, mapGetD_mapInsert_self]
      have hfc : rrfContrib k (ir :: rest) d =
          1 / (k + ir.1 + 1) + rrfContrib k rest d := by
        unfold rrfContrib
        rw [List.filter_cons]
        simp [hd]
      rw [hfc]
      ring
    · rw [mapGetD_mapInsert_ne _ _ _ _ _ (fun hc => hd hc.symm)]
      have hfc : rrfContrib k (ir :: rest) d = rrfContrib k rest d := by
        unfold rrfContrib
        rw [List.filter_cons]
        simp [hd]
      rw [hfc]

theorem rrfFold_getD (k : ℚ) (init : List (Option String × ℚ))
    (ranked : List HybridSearchResult) (d : Option String) :
    mapGetD (rrfFold k init ranked) d 0 =
      mapGetD init d 0 + rrfContrib k ranked.enum d :=
  rrfFoldPairs_getD k ranked.enum init d

theorem rrfFoldPairs_mapHas (k : ℚ) (prs : List (Nat × HybridSearchResult))
    (m : List (Option String × ℚ)) (d : Option String) :
    mapHas (prs.foldl
      (fun m ir => mapInsert m ir.2.document.docId
        (mapGetD m ir.2.document.docId 0 + 1 / (k + ir.1 + 1))) m) d = true ↔
      mapHas m d = true ∨ ∃ ir ∈ prs, ir.2.document.docId = d := by
  induction prs generalizing m with
  | nil => simp
  | cons ir rest ih =>
    simp only [List.foldl_cons]
    rw [ih, mapHas_mapInsert]
    simp only [List.mem_cons]
    constructor
    · rintro ((h | h) | h)
      · exact Or.inr ⟨ir, Or.inl rfl, h.symm⟩
      · exact Or.inl h
      · rcases h with ⟨ir', hir', hd'⟩
        exact Or.inr ⟨ir', Or.inr hir', hd'⟩
    · rintro (h | ⟨ir', hir' | hir', hd'⟩)
      · exact Or.inl (Or.inr h)
      · exact Or.inl (Or.inl (by rw [hir'] at hd'; exact hd'.symm))
      · exact Or.inr ⟨ir', hir', hd'⟩

theorem rrfFoldPairs_keysNodup (k : ℚ) (prs : List (Nat × HybridSearchResult))
    (m : List (Option String × ℚ)) (h : keysNodup m) :
    keysNodup (prs.foldl
      (fun m ir => mapInsert m ir.2.document.docId
        (mapGetD m ir.2.document.docId 0 + 1 / (k + ir.1 + 1))) m) := by
  induction prs generalizing m with
  | nil => simpa using h
  | cons ir rest ih =>
    simp only [List.foldl_cons]
    exact ih _ (keysNodup_mapInsert _ _ _ h)

theorem mem_enumFrom_facts {α : Type} (l : List α) (n : Nat) (ir : Nat × α)
    (h : ir ∈ List.enumFrom n l) : n ≤ ir.1 ∧ ir.2 ∈ l := by
  induction l generalizing n with
  | nil => simp [List.enumFrom] at h
  | cons x rest ih =>
    simp only [List.enumFrom] at h
    rcases List.mem_cons.mp h with hm | hm
    · rw [hm]
      exact ⟨le_refl n, List.mem_cons_self x rest⟩
    · rcases ih (n + 1) hm with ⟨h1, h2⟩
      exact ⟨le_trans (Nat.le_succ n) h1, List.mem_cons.mpr (Or.inr h2)⟩

theorem length_filter_enumFrom (l : List HybridSearchResult) (n : Nat)
    (d : Option String) :
    ((List.enumFrom n l).filter
      (fun ir => decide (ir.2.document.docId = d))).length =
      (l.filter (fun r => decide (r.document.docId = d))).length := by
  induction l generalizing n with
  | nil => simp [List.enumFrom]
  | cons x rest ih =>
    simp only [List.enumFrom, List.filter_cons]
    by_cases hx : x.document.docId = d
    · simp [hx, ih]
    · simp only [hx, decide_False]
      simp
      exact ih (n + 1)

theorem rrfContrib_zero (k : ℚ) (prs : List (Nat × HybridSearchResult))
    (d : Option String) (h : ∀ ir ∈ prs, ir.2.document.docId ≠ d) :
    rrfContrib k prs d = 0 := by
  unfold rrfContrib
  rw [List.filter_eq_nil_iff.mpr (fun ir hir => by simpa using h ir hir)]
  simp

theorem rrfContrib_head (k : ℚ) (x : HybridSearchResult)
    (t : List HybridSearchResult) (d : Option String)
    (hx : x.document.docId = d) (ht : ∀ r ∈ t, r.document.docId ≠ d) :
    rrfContrib k ((x :: t).enum) d = 1 / (k + 1) := by
  rw [List.enum_cons]
  unfold rrfContrib
  rw [List.filter_cons]
  simp only [hx, decide_True, List.map_cons, List.sum_cons]
  rw [List.filter_eq_nil_iff.mpr (fun ir hir => by
    simpa using ht ir.2 (mem_enumFrom_facts t 1 ir hir).2)]
  simp

theorem rrfContrib_cons_ne (k : ℚ) (x : HybridSearchResult)
    (t : List HybridSearchResult) (d : Option String)
    (hx : x.document.docId ≠ d) :
    rrfContrib k ((x :: t).enum) d = rrfContrib k (List.enumFrom 1 t) d := by
  rw [List.enum_cons]
  unfold rrfContrib
  rw [List.filter_cons]
  simp [hx]

theorem rrfContrib_le (k : ℚ) (hk : 0 < k)
    (prs : List (Nat × HybridSearchResult)) (d : Option String)
    (hidx : ∀ ir ∈ prs, 1 ≤ ir.1)
    (hcount : ((prs.filter
      (fun ir => decide (ir.2.document.docId = d)))).length ≤ 1) :
    rrfContrib k prs d ≤ 1 / (k + 2) := by
  unfold rrfContrib
  cases hfl : prs.filter (fun ir => decide (ir.2.document.docId = d)) with
  | nil =>
    simp
    positivity
  | cons ir rest =>
    have hrest : rest = [] := by
      rw [hfl] at hcount
      simp only [List.length_cons] at hcount
      have hzero : rest.length = 0 := by omega
      exact List.length_eq_zero.mp hzero
    subst hrest
    simp only [List.map_cons, List.map_nil, List.sum_cons, List.sum_nil, add_zero]
    have hir : ir ∈ prs := by
      have : ir ∈ prs.filter (fun ir => decide (ir.2.document.docId = d)) := by
        rw [hfl]; exact List.mem_cons_self ir []
      exact (List.mem_filter.mp this).1
    have h1 : 1 ≤ ir.1 := hidx ir hir
    have hle : k + 2 ≤ k + ir.1 + 1 := by
      have : (1 : ℚ) ≤ (ir.1 : ℚ) := by exact_mod_cast h1
      linarith
    exact one_div_le_one_div_of_le (by linarith) hle

theorem rrfFold_mapHas (k : ℚ) (init : List (Option String × ℚ))
    (ranked : List HybridSearchResult) (d : Option String) :
    mapHas (rrfFold k init ranked) d = true ↔
      mapHas init d = true ∨ ∃ ir ∈ ranked.enum, ir.2.document.docId = d :=
  rrfFoldPairs_mapHas k ranked.enum init d

theorem rrfFold_keysNodup (k : ℚ) (init : List (Option String × ℚ))
    (ranked : List HybridSearchResult) (h : keysNodup init) :
    keysNodup (rrfFold k init ranked) :=
  rrfFoldPairs_keysNodup k ranked.enum init h

theorem exists_enumFrom_of_mem {α : Type} (l : List α) (n : Nat) (x : α)
    (h : x ∈ l) : ∃ i, (i, x) ∈ List.enumFrom n l := by
  induction l generalizing n with
  | nil => simp at h
  | cons y rest ih =>
    rcases List.mem_cons.mp h with hm | hm
    · exact ⟨n, by simp [List.enumFrom, hm]⟩
    · rcases ih (n + 1) hm with ⟨i, hi⟩
      exact ⟨i, by simp [List.enumFrom]; right; exact hi⟩

/-- C6: for every smoothing constant `k > 0`, a chunk key heading both the
semantic and the BM25 rankings accumulates reciprocal-rank score
`2 / (k + 1)`, strictly more than a chunk key present (once) in only one
ranking and absent from the other, whose score is at most `1 / (k + 2)`;
therefore the former strictly precedes the latter in the fused ranking
sorted by accumulated score. -/
theorem rrf_dual_rank_dominates (k : ℚ) (x1 x2 : HybridSearchResult)
    (t1 t2 : List HybridSearchResult) (d1 d2 : Option String)
    (hk : 0 < k)
    (hx1 : x1.document.docId = d1) (hx2 : x2.document.docId = d1)
    (hd1t1 : ∀ r ∈ t1, r.document.docId ≠ d1)
    (hd1t2 : ∀ r ∈ t2, r.document.docId ≠ d1)
    (hd2r1 : ((x1 :: t1).filter
      (fun r => decide (r.document.docId = d2))).length = 1)
    (hd2r2 : ∀ r ∈ x2 :: t2, r.document.docId ≠ d2)
    (hne : d1 ≠ d2) :
    mapGetD (rrfScores (x1 :: t1) (x2 :: t2) k) d2 0 <
        mapGetD (rrfScores (x1 :: t1) (x2 :: t2) k) d1 0 ∧
      [d1, d2].Sublist
        ((fusedRanking (x1 :: t1) (x2 :: t2) k).map Prod.fst) := by
  have hk1 : (0 : ℚ) < k + 1 := by linarith
  have hk2 : (0 : ℚ) < k + 2 := by linarith
  have hs1 : mapGetD (rrfScores (x1 :: t1) (x2 :: t2) k) d1 0 =
      1 / (k + 1) + 1 / (k + 1) := by
    unfold rrfScores
    rw [rrfFold_getD, rrfFold_getD]
    rw [rrfContrib_head k x1 t1 d1 hx1 hd1t1,
      rrfContrib_head k x2 t2 d1 hx2 hd1t2]
    simp [mapGetD]
  have hx1ne : x1.document.docId ≠ d2 := by rw [hx1]; exact hne
  have hcount' : ((List.enumFrom 1 t1).filter
      (fun ir => decide (ir.2.document.docId = d2))).length = 1 := by
    rw [length_filter_enumFrom]
    have hh := hd2r1
    rw [List.filter_cons] at hh
    simpa [hx1ne] using hh
  have hcontrib2 : rrfContrib k ((x1 :: t1).enum) d2 ≤ 1 / (k + 2) := by
    rw [rrfContrib_cons_ne k x1 t1 d2 hx1ne]
    exact rrfContrib_le k hk _ d2
      (fun ir hir => (mem_enumFrom_facts t1 1 ir hir).1) (le_of_eq hcount')
  have hzero2 : rrfContrib k ((x2 :: t2).enum) d2 = 0 :=
    rrfContrib_zero k _ d2
      (fun ir hir => hd2r2 ir.2 (mem_enumFrom_facts (x2 :: t2) 0 ir hir).2)
  have hs2 : mapGetD (rrfScores (x1 :: t1) (x2 :: t2) k) d2 0 =
      rrfContrib k ((x1 :: t1).enum) d2 := by
    unfold rrfScores
    rw [rrfFold_getD, rrfFold_getD, hzero2]
    simp [mapGetD]
  have hlt : mapGetD (rrfScores (x1 :: t1) (x2 :: t2) k) d2 0 <
      mapGetD (rrfScores (x1 :: t1) (x2 :: t2) k) d1 0 := by
    rw [hs1, hs2]
    have hstep : (1 : ℚ) / (k + 2) < 1 / (k + 1) :=
      one_div_lt_one_div_of_lt hk1 (by linarith)
    have hposs : (0 : ℚ) < 1 / (k + 1) := by positivity
    linarith
  refine ⟨hlt, ?_⟩
  have hnodup : keysNodup (rrfScores (x1 :: t1) (x2 :: t2) k) :=
    rrfFold_keysNodup k _ _ (rrfFold_keysNodup k [] _ trivial)
  have hhas1 : mapHas (rrfScores (x1 :: t1) (x2 :: t2) k) d1 = true := by
    unfold rrfScores
    rw [rrfFold_mapHas]
    right
    exact ⟨(0, x2), by rw [List.enum_cons]; exact List.mem_cons_self _ _, hx2⟩
  have hhas2 : mapHas (rrfScores (x1 :: t1) (x2 :: t2) k) d2 = true := by
    unfold rrfScores
    rw [rrfFold_mapHas]
    left
    rw [rrfFold_mapHas]
    right
    have hex : ∃ r ∈ x1 :: t1, r.document.docId = d2 := by
      have hne' : (x1 :: t1).filter
          (fun r => decide (r.document.docId = d2)) ≠ [] := by
        intro hc
        rw [hc] at hd2r1
        simp at hd2r1
      rcases List.exists_mem_of_ne_nil _ hne' with ⟨r, hr⟩
      have hmf := List.mem_filter.mp hr
      exact ⟨r, hmf.1, by simpa using hmf.2⟩
    rcases hex with ⟨r, hr, hrd⟩
    rcases exists_enumFrom_of_mem (x1 :: t1) 0 r hr with ⟨i, hi⟩
    exact ⟨(i, r), hi, hrd⟩
  have he1 := getD_mem_of_mapHas (rrfScores (x1 :: t1) (x2 :: t2) k) d1 0 hhas1
  have he2 := getD_mem_of_mapHas (rrfScores (x1 :: t1) (x2 :: t2) k) d2 0 hhas2
  have hne12 : (d1, mapGetD (rrfScores (x1 :: t1) (x2 :: t2) k) d1 0) ≠
      (d2, mapGetD (rrfScores (x1 :: t1) (x2 :: t2) k) d2 0) := by
    intro hc
    exact hne (congrArg Prod.fst hc)
  have hsub : [(d1, mapGetD (rrfScores (x1 :: t1) (x2 :: t2) k) d1 0),
      (d2, mapGetD (rrfScores (x1 :: t1) (x2 :: t2) k) d2 0)].Sublist
      (fusedRanking (x1 :: t1) (x2 :: t2) k) := by
    apply sorted_precedes (fun e => e.2) _ _ _
      (sortDescBy_sorted _ _)
      ((mem_sortDescBy _ _ _).mpr he1)
      ((mem_sortDescBy _ _ _).mpr he2)
      hne12
    exact hlt
  simpa using hsub.map Prod.fst

/-- Concrete documents and ranked lists for the C6 witness. -/
def docA : Doc := ⟨"alpha", { source := some "a" }⟩

def docB : Doc := ⟨"beta", { source := some "b" }⟩

def resA : HybridSearchResult := ⟨docA, 1, 1, 1⟩

def resB : HybridSearchResult := ⟨docB, 0, 0, 0⟩

/-- Witness for C6 at `k = 60`: key "a" heads both rankings, key "b" occurs
only in the first. -/
theorem rrf_dual_rank_dominates_witness :
    mapGetD (rrfScores [resA, resB] [resA] 60) (some "b") 0 <
        mapGetD (rrfScores [resA, resB] [resA] 60) (some "a") 0 ∧
      [some "a", some "b"].Sublist
        ((fusedRanking [resA, resB] [resA] 60).map Prod.fst) :=
  rrf_dual_rank_dominates 60 resA resA [resB] [] (some "a") (some "b")
    (by norm_num) (by decide) (by decide) (by decide) (by decide) (by decide)
    (by decide) (by decide)

/-! ## Pinecone dual-index hybrid search
(`performPineconeHybridSearch` / `combineSearchResults`,
src/backend/src/utils/pinecone-hybrid-search.ts) -/

inductive CorpusType
  | documents
  | transcripts
  deriving DecidableEq

structure PineconeMatch where
  id : String
  score : ℚ
  metadata : Option ChunkMetadata
  deriving DecidableEq

structure PineconeEntry where
  id : String
  metadata : Option ChunkMetadata
  deriving DecidableEq

/-- Whether a stored entry satisfies the metadata filter `{ clientId: v }`
(`none` = no filter). Part of the §6 dense-store collaborator contract. -/
def matchesFilter (filter : Option Nat) (e : PineconeEntry) : Bool :=
  match filter with
  | none => true
  | some v =>
    match e.metadata with
    | some md => decide (md.clientId = some v)
    | none => false

/-- Modelled collaborator: a Pinecone `index.query({topK, filter?, ...})` —
the filtered entries ranked by the external similarity score, top `topK`. -/
def pineconeQuery (entries : List PineconeEntry) (score : String → ℚ)
    (filter : Option Nat) (topK : Nat) : List PineconeMatch :=
  (sortDescBy (fun mt => mt.score)
    ((entries.filter (matchesFilter filter)).map
      (fun e => ⟨e.id, score e.id, e.metadata⟩))).take topK

/-- The `HybridSearchResult` interface of pinecone-hybrid-search.ts
(distinct from the `types/` interface of the same name). -/
structure PineHybridResult where
  document : Doc
  denseScore : ℚ
  sparseScore : ℚ
  combinedScore : ℚ
  deriving DecidableEq

/-- The `documentsMap` after the dense pass of `combineSearchResults`. -/
def denseDocsFold (denseMatches : List PineconeMatch) :
    List (String × Doc) :=
  denseMatches.foldl
    (fun m mt =>
      match mt.metadata with
      | some md => mapInsert m mt.id (Doc.mk (md.text.getD "") md)
      | none => m)
    []

/-- The `documentsMap` after the sparse pass (which only adds ids the dense
pass did not). -/
def sparseDocsFold (sparseMatches : List PineconeMatch)
    (m0 : List (String × Doc)) : List (String × Doc) :=
  sparseMatches.foldl
    (fun m mt =>
      match mt.metadata with
      | some md =>
          if mapHas m mt.id then m
          else mapInsert m mt.id (Doc.mk (md.text.getD "") md)
      | none => m)
    m0

/-- `combineSearchResults` (pinecone-hybrid-search.ts lines 107-179): build
per-id score maps and a document map from the dense and sparse matches,
normalize each side by its maximum score floored at `0.001`, combine with
the configured weights, and sort by combined score descending. The weights
are `CONFIG.SEARCH.HYBRID.DENSE_WEIGHT` / `SPARSE_WEIGHT`; their config
file is not among the sources, so they are parameters here. -/
def combineSearchResults (denseWeight sparseWeight : ℚ)
    (denseMatches sparseMatches : List PineconeMatch) :
    List PineHybridResult :=
  let denseScores :=
    denseMatches.foldl (fun m mt => mapInsert m mt.id mt.score) []
  let sparseScores :=
    sparseMatches.foldl (fun m mt => mapInsert m mt.id mt.score) []
  let documentsMap := sparseDocsFold sparseMatches (denseDocsFold denseMatches)
  let allIds := uniqueList (denseScores.map Prod.fst ++ sparseScores.map Prod.fst)
  let maxDenseScore := (denseScores.map Prod.snd).foldl max (1 / 1000)
  let maxSparseScore := (sparseScores.map Prod.snd).foldl max (1 / 1000)
  let hybridResults := allIds.filterMap (fun id =>
    match mapGet? documentsMap id with
    | none => none
    | some document =>
        let normalizedDenseScore := mapGetD denseScores id 0 / maxDenseScore
        let normalizedSparseScore := mapGetD sparseScores id 0 / maxSparseScore
        some ⟨document, normalizedDenseScore, normalizedSparseScore,
          normalizedDenseScore * denseWeight +
            normalizedSparseScore * sparseWeight⟩)
  sortDescBy (fun r => r.combinedScore) hybridResults

/-- Context of `performPineconeHybridSearch`: the four (possibly never
initialized) Pinecone indexes from config/initialize.ts, the embedding
collaborator (`embedOk` = whether `embeddings.embedQuery` succeeds), the
two external similarity scorings, the sparse generator state, and the two
config weights. -/
structure PineconeCtx where
  docDenseIndex : Option (List PineconeEntry)
  docSparseIndex : Option (List PineconeEntry)
  transcriptDenseIndex : Option (List PineconeEntry)
  transcriptSparseIndex : Option (List PineconeEntry)
  embedOk : String → Bool
  denseScore : String → String → ℚ
  sparseScore : String → String → ℚ
  sparseEmbed : String → List Nat × List ℚ
  denseWeight : ℚ
  sparseWeight : ℚ

/-- The transcript client filter: applied only when
`type === 'transcripts' && userId` (`0` and `undefined` are falsy). -/
def pineFilter (type : CorpusType) (userId : Option Nat) : Option Nat :=
  if type = CorpusType.transcripts ∧ optNatTruthy userId = true then userId
  else none

/-- The `try` body of `performPineconeHybridSearch` (lines 35-99): errors
propagate to the surrounding catch; querying a never-initialized (`null`)
index is such an error. -/
def performPineconeHybridSearchBody (ctx : PineconeCtx) (query : String)
    (type : CorpusType) (userId : Option Nat) (topK : Nat) :
    Except Unit (List PineHybridResult) :=
  if ctx.embedOk query = false then .error () else
  match (if type = CorpusType.documents then ctx.docDenseIndex
      else ctx.transcriptDenseIndex) with
  | none => .error ()
  | some denseEntries =>
    if (ctx.sparseEmbed query).1 ≠ [] ∧ (ctx.sparseEmbed query).2 ≠ [] then
      match (if type = CorpusType.documents then ctx.docSparseIndex
          else ctx.transcriptSparseIndex) with
      | none => .error ()
      | some sparseEntries =>
          .ok ((combineSearchResults ctx.denseWeight ctx.sparseWeight
            (pineconeQuery denseEntries (ctx.denseScore query)
              (pineFilter type userId) (topK * 2))
            (pineconeQuery sparseEntries (ctx.sparseScore query)
              (pineFilter type userId) (topK * 2))).take topK)
    else
      .ok ((combineSearchResults ctx.denseWeight ctx.sparseWeight
        (pineconeQuery denseEntries (ctx.denseScore query)
          (pineFilter type userId) (topK * 2)) []).take topK)

/-- `performPineconeHybridSearch` (lines 25-105): the catch-all handler
turns any internal failure into an empty result list. -/
def performPineconeHybridSearch (ctx : PineconeCtx) (query : String)
    (type : CorpusType) (userId : Option Nat) (topK : Nat := 10) :
    List PineHybridResult :=
  match performPineconeHybridSearchBody ctx query type userId topK with
  | .ok r => r
  | .error _ => []

theorem mem_of_mapGet? {K V : Type} [DecidableEq K] (m : List (K × V))
    (k : K) (v : V) (h : mapGet? m k = some v) : (k, v) ∈ m := by
  induction m with
  | nil => simp [mapGet?] at h
  | cons e rest ih =>
    by_cases he : e.1 = k
    · rw [show mapGet? (e :: rest) k = some e.2 by simp [mapGet?, he]] at h
      cases h
      exact List.mem_cons.mpr (Or.inl (by rw [← he]))
    · rw [show mapGet? (e :: rest) k = mapGet? rest k by simp [mapGet?, he]] at h
      exact List.mem_cons.mpr (Or.inr (ih h))

theorem pineconeQuery_mem (entries : List PineconeEntry)
    (score : String → ℚ) (filter : Option Nat) (topK : Nat)
    (mt : PineconeMatch) (h : mt ∈ pineconeQuery entries score filter topK) :
    ∃ e ∈ entries, matchesFilter filter e = true ∧ mt.metadata = e.metadata := by
  unfold pineconeQuery at h
  have h2 := (List.take_sublist _ _).subset h
  have h3 := (mem_sortDescBy _ _ _).mp h2
  rcases List.mem_map.mp h3 with ⟨e, he, hme⟩
  have hf := List.mem_filter.mp he
  exact ⟨e, hf.1, hf.2, by rw [← hme]⟩

theorem matchesFilter_some (v : Nat) (e : PineconeEntry)
    (h : matchesFilter (some v) e = true) :
    ∃ md, e.metadata = some md ∧ md.clientId = some v := by
  unfold matchesFilter at h
  cases hmd : e.metadata with
  | none => rw [hmd] at h; cases h
  | some md =>
    rw [hmd] at h
    exact ⟨md, rfl, of_decide_eq_true h⟩

theorem denseDocsFold_mem (denseMatches : List PineconeMatch)
    (entry : String × Doc) (h : entry ∈ denseDocsFold denseMatches) :
    ∃ mt ∈ denseMatches, ∃ md, mt.metadata = some md ∧
      entry.2 = Doc.mk (md.text.getD "") md := by
  have general : ∀ (ms : List PineconeMatch) (m0 : List (String × Doc)),
      entry ∈ ms.foldl (fun m mt =>
        match mt.metadata with
        | some md => mapInsert m mt.id (Doc.mk (md.text.getD "") md)
        | none => m) m0 →
      entry ∈ m0 ∨ ∃ mt ∈ ms, ∃ md, mt.metadata = some md ∧
        entry.2 = Doc.mk (md.text.getD "") md := by
    intro ms
    induction ms with
    | nil => intro m0 h; exact Or.inl (by simpa using h)
    | cons mt rest ih =>
      intro m0 h
      simp only [List.foldl_cons] at h
      rcases ih _ h with h1 | h1
      · revert h1
        cases hmd : mt.metadata with
        | none =>
          intro h1
          exact Or.inl h1
        | some md =>
          intro h1
          rcases mem_mapInsert _ _ _ _ h1 with h2 | h2
          · exact Or.inr ⟨mt, List.mem_cons_self _ _, md, hmd, by rw [h2]⟩
          · exact Or.inl h2
      · rcases h1 with ⟨mt', hmt', md, hmd, he⟩
        exact Or.inr ⟨mt', List.mem_cons.mpr (Or.inr hmt'), md, hmd, he⟩
  rcases general denseMatches [] h with h1 | h1
  · simp at h1
  · exact h1

theorem sparseDocsFold_mem (sparseMatches : List PineconeMatch)
    (m0 : List (String × Doc)) (entry : String × Doc)
    (h : entry ∈ sparseDocsFold sparseMatches m0) :
    entry ∈ m0 ∨ ∃ mt ∈ sparseMatches, ∃ md, mt.metadata = some md ∧
      entry.2 = Doc.mk (md.text.getD "") md := by
  have general : ∀ (ms : List PineconeMatch) (m0 : List (String × Doc)),
      entry ∈ ms.foldl (fun m mt =>
        match mt.metadata with
        | some md =>
            if mapHas m mt.id then m
            else mapInsert m mt.id (Doc.mk (md.text.getD "") md)
        | none => m) m0 →
      entry ∈ m0 ∨ ∃ mt ∈ ms, ∃ md, mt.metadata = some md ∧
        entry.2 = Doc.mk (md.text.getD "") md := by
    intro ms
    induction ms with
    | nil => intro m0 h; exact Or.inl (by simpa using h)
    | cons mt rest ih =>
      intro m0 h
      simp only [List.foldl_cons] at h
      rcases ih _ h with h1 | h1
      · revert h1
        cases hmd : mt.metadata with
        | none =>
          intro h1
          exact Or.inl h1
        | some md =>
          intro h1
          have h1' : entry ∈ (if mapHas m0 mt.id = true then m0
              else mapInsert m0 mt.id (Doc.mk (md.text.getD "") md)) := h1
          by_cases hhas : mapHas m0 mt.id = true
          · rw [if_pos hhas] at h1'
            exact Or.inl h1'
          · rw [if_neg hhas] at h1'
            rcases mem_mapInsert _ _ _ _ h1' with h2 | h2
            · exact Or.inr ⟨mt, List.mem_cons_self _ _, md, hmd, by rw [h2]⟩
            · exact Or.inl h2
      · rcases h1 with ⟨mt', hmt', md, hmd, he⟩
        exact Or.inr ⟨mt', List.mem_cons.mpr (Or.inr hmt'), md, hmd, he⟩
  exact general sparseMatches m0 h

theorem combineSearchResults_mem (dw sw : ℚ)
    (denseMatches sparseMatches : List PineconeMatch) (r : PineHybridResult)
    (h : r ∈ combineSearchResults dw sw denseMatches sparseMatches) :
    ∃ mt ∈ denseMatches ++ sparseMatches, ∃ md, mt.metadata = some md ∧
      r.document = Doc.mk (md.text.getD "") md := by
  simp only [combineSearchResults] at h
  rw [mem_sortDescBy] at h
  rcases List.mem_filterMap.mp h with ⟨id, _, hsome⟩
  revert hsome
  cases hget : mapGet? (sparseDocsFold sparseMatches
      (denseDocsFold denseMatches)) id with
  | none => intro hsome; cases hsome
  | some document =>
    intro hsome
    have hr : r.document = document := by
      cases hsome
      rfl
    have hmem := mem_of_mapGet? _ _ _ hget
    rcases sparseDocsFold_mem _ _ _ hmem with h1 | h1
    · rcases denseDocsFold_mem _ _ h1 with ⟨mt, hmt, md, hmd, he⟩
      exact ⟨mt, List.mem_append.mpr (Or.inl hmt), md, hmd, by rw [hr]; exact he⟩
    · rcases h1 with ⟨mt, hmt, md, hmd, he⟩
      exact ⟨mt, List.mem_append.mpr (Or.inr hmt), md, hmd, by rw [hr]; exact he⟩

theorem pineBody_ok_shape (ctx : PineconeCtx) (query : String)
    (type : CorpusType) (userId : Option Nat) (topK : Nat)
    (res : List PineHybridResult)
    (h : performPineconeHybridSearchBody ctx query type userId topK = .ok res) :
    ∃ dm sm : List PineconeMatch,
      res = (combineSearchResults ctx.denseWeight ctx.sparseWeight
        dm sm).take topK ∧
      ∀ mt ∈ dm ++ sm, ∃ e, matchesFilter (pineFilter type userId) e = true ∧
        mt.metadata = e.metadata := by
  unfold performPineconeHybridSearchBody at h
  by_cases hemb : ctx.embedOk query = false
  · rw [if_pos hemb] at h
    cases h
  · rw [if_neg hemb] at h
    split at h
    · cases h
    · split at h
      · split at h
        · cases h
        · cases h
          refine ⟨_, _, rfl, ?_⟩
          intro mt hmt
          rcases List.mem_append.mp hmt with hm | hm
          · rcases pineconeQuery_mem _ _ _ _ _ hm with ⟨e, _, hf, hmd⟩
            exact ⟨e, hf, hmd⟩
          · rcases pineconeQuery_mem _ _ _ _ _ hm with ⟨e, _, hf, hmd⟩
            exact ⟨e, hf, hmd⟩
      · cases h
        refine ⟨_, [], rfl, ?_⟩
        intro mt hmt
        rcases List.mem_append.mp hmt with hm | hm
        · rcases pineconeQuery_mem _ _ _ _ _ hm with ⟨e, _, hf, hmd⟩
          exact ⟨e, hf, hmd⟩
        · simp at hm

/-! ## Store-based hybrid search (`performHybridSearch`,
src/backend/src/search/index.ts, and `searchBM25`, utils/bm25.ts in
part_015) -/

structure SearchResult where
  document : Doc
  score : ℚ
  source : String
  deriving DecidableEq

structure BM25Result where
  document : Doc
  score : ℚ
  deriving DecidableEq

/-- Splits a character list into maximal space-free words (the effect of
collapsing whitespace runs and trimming, then splitting). -/
def charWords : List Char → List Char → List (List Char)
  | [], cur => if cur = [] then [] else [cur.reverse]
  | c :: rest, cur =>
      if c = ' ' then
        if cur = [] then charWords rest []
        else cur.reverse :: charWords rest []
      else charWords rest (c :: cur)

/-- `sanitizeQueryForBM25`: replace regex special characters by spaces,
drop quote characters, collapse whitespace runs, trim. (Implemented on
character lists; `Char.ofNat` spells the brace and quote characters.) -/
def sanitizeQueryForBM25 (query : String) : String :=
  let specials : List Char :=
    ['.', '*', '+', '?', '^', '$', Char.ofNat 123, Char.ofNat 125,
     '(', ')', '|', '[', ']', '\\']
  let s1 := query.toList.map (fun c => if c ∈ specials then ' ' else c)
  let s2 := s1.filter
    (fun c => !(c = Char.ofNat 39 ∨ c = Char.ofNat 34 : Bool))
  String.mk (((charWords s2 []).intersperse [' ']).flatten)

/-- Modelled collaborator: `BM25Retriever.fromDocuments(docs, {k}).invoke(q)`
— the top `k` documents of its corpus by the external lexical ranking. -/
def bm25Invoke (bmScore : String → Doc → ℚ) (q : String) (docs : List Doc)
    (k : Nat) : List Doc :=
  (sortDescBy (bmScore q) docs).take k

/-- `searchBM25` (part_015, sanitizing variant): a missing index yields
`[]`; a non-empty pre-filtered set is searched through an ephemeral
retriever over exactly that set; otherwise the persistent corpus index is
used. Result scores are `1 - 0.1 * rank`. -/
def searchBM25 (storage : Option (List Doc)) (bmScore : String → Doc → ℚ)
    (query : String) (topK : Nat) (preFilteredDocs : List Doc) :
    List BM25Result :=
  match storage with
  | none => []
  | some mainDocs =>
    if preFilteredDocs.length > 0 then
      ((bm25Invoke bmScore (sanitizeQueryForBM25 query) preFilteredDocs
        topK).enum).map (fun id => ⟨id.2, 1 - (id.1 : ℚ) * (1 / 10)⟩)
    else
      ((bm25Invoke bmScore (sanitizeQueryForBM25 query) mainDocs
        topK).enum).map (fun id => ⟨id.2, 1 - (id.1 : ℚ) * (1 / 10)⟩)

/-- Whether a stored document satisfies the `{ clientId: v }` filter. -/
def docMatchesClient (filter : Option Nat) (d : Doc) : Bool :=
  match filter with
  | none => true
  | some cid => decide (d.metadata.clientId = some cid)

/-- Modelled collaborator: `vectorStore.similaritySearch(query, k, filter?)`
— the filtered stored documents ranked by the external similarity score,
top `k`. -/
def similaritySearch (docs : List Doc) (simScore : String → Doc → ℚ)
    (query : String) (k : Nat) (filter : Option Nat) : List Doc :=
  (sortDescBy (simScore query) (docs.filter (docMatchesClient filter))).take k

/-- `vectorStore.similaritySearchWithScore(query, k, filter?)`. -/
def similaritySearchWithScore (docs : List Doc)
    (simScore : String → Doc → ℚ) (query : String) (k : Nat)
    (filter : Option Nat) : List (Doc × ℚ) :=
  (similaritySearch docs simScore query k filter).map
    (fun d => (d, simScore query d))

/-- Context of `performHybridSearch`: the two (possibly uninitialized)
LangChain vector stores, the `bm25Storage` state, and the two external
scoring collaborators. -/
structure StoreCtx where
  docVectorStore : Option (List Doc)
  transcriptVectorStore : Option (List Doc)
  docBM25 : Option (List Doc)
  transcriptBM25 : Option (List Doc)
  simScore : String → Doc → ℚ
  bmScore : String → Doc → ℚ

/-- `doc.metadata.source || doc.metadata.fileName || doc.metadata.id`. -/
def searchDocKey (d : Doc) : Option String :=
  jsOrStr (jsOrStr d.metadata.source d.metadata.fileName) d.metadata.id

/-- The `combinedResults` map after inserting the semantic results. -/
def semanticFold (semanticResults : List (Doc × ℚ)) :
    List (Option String × SearchResult) :=
  semanticResults.foldl
    (fun m ds => mapInsert m (searchDocKey ds.1) ⟨ds.1, ds.2, "semantic"⟩) []

/-- The `combinedResults` map after merging the BM25 results: an id already
present gets its score averaged in place, a new id is inserted with source
"bm25". -/
def bm25Fold (bm25Results : List BM25Result)
    (m1 : List (Option String × SearchResult)) :
    List (Option String × SearchResult) :=
  bm25Results.foldl
    (fun m br =>
      match mapGet? m (searchDocKey br.document) with
      | some existing =>
          mapInsert m (searchDocKey br.document)
            ⟨existing.document, (existing.score + br.score) / 2,
              existing.source⟩
      | none =>
          mapInsert m (searchDocKey br.document) ⟨br.document, br.score, "bm25"⟩)
    m1

/-- The body of `performHybridSearch` once the store exists: pre-filter the
client's documents, run the filtered semantic search and the BM25 search
over the pre-filtered set, merge by document key, sort by score descending,
truncate to `topK`. -/
def performHybridSearchCombine (ctx : StoreCtx) (query : String)
    (userId : Nat) (type : CorpusType) (topK : Nat) (docs : List Doc) :
    List SearchResult :=
  let clientFilter : Option Nat :=
    if type = CorpusType.transcripts then some userId else none
  let clientDocs := similaritySearch docs ctx.simScore "" 1000 clientFilter
  let semanticResults :=
    similaritySearchWithScore docs ctx.simScore query topK clientFilter
  let bm25Results := searchBM25
    (if type = CorpusType.documents then ctx.docBM25 else ctx.transcriptBM25)
    ctx.bmScore query topK clientDocs
  (sortDescBy (fun r => r.score)
    ((bm25Fold bm25Results (semanticFold semanticResults)).map
      Prod.snd)).take topK

/-- `performHybridSearch` (search/index.ts lines 54-151): throws when the
requested vector store was never initialized, otherwise runs the hybrid
combination. -/
def performHybridSearch (ctx : StoreCtx) (query : String) (userId : Nat)
    (type : CorpusType) (topK : Nat := 10) :
    Except Unit (List SearchResult) :=
  match (if type = CorpusType.documents then ctx.docVectorStore
      else ctx.transcriptVectorStore) with
  | none => .error ()
  | some docs => .ok (performHybridSearchCombine ctx query userId type topK docs)

theorem similaritySearch_mem (docs : List Doc) (simScore : String → Doc → ℚ)
    (query : String) (k : Nat) (filter : Option Nat) (d : Doc)
    (h : d ∈ similaritySearch docs simScore query k filter) :
    d ∈ docs ∧ docMatchesClient filter d = true := by
  unfold similaritySearch at h
  have h2 := (List.take_sublist _ _).subset h
  have h3 := (mem_sortDescBy _ _ _).mp h2
  exact List.mem_filter.mp h3

theorem similaritySearchWithScore_mem (docs : List Doc)
    (simScore : String → Doc → ℚ) (query : String) (k : Nat)
    (filter : Option Nat) (ds : Doc × ℚ)
    (h : ds ∈ similaritySearchWithScore docs simScore query k filter) :
    ds.1 ∈ docs ∧ docMatchesClient filter ds.1 = true := by
  unfold similaritySearchWithScore at h
  rcases List.mem_map.mp h with ⟨d, hd, hds⟩
  have hm := similaritySearch_mem docs simScore query k filter d hd
  cases hds
  exact hm

theorem similaritySearch_ne_nil (docs : List Doc)
    (simScore : String → Doc → ℚ) (query : String) (filter : Option Nat)
    (d0 : Doc) (hd0 : d0 ∈ docs) (hf : docMatchesClient filter d0 = true) :
    similaritySearch docs simScore query 1000 filter ≠ [] := by
  unfold similaritySearch
  intro hc
  rcases List.take_eq_nil_iff.mp hc with hk | hs
  · cases hk
  · have hmem : d0 ∈ sortDescBy (simScore query)
        (docs.filter (docMatchesClient filter)) :=
      (mem_sortDescBy _ _ _).mpr (List.mem_filter.mpr ⟨hd0, hf⟩)
    rw [hs] at hmem
    simp at hmem

theorem searchBM25_preFiltered_mem (storage : Option (List Doc))
    (bmScore : String → Doc → ℚ) (query : String) (topK : Nat)
    (preFilteredDocs : List Doc) (br : BM25Result)
    (hpre : preFilteredDocs ≠ [])
    (h : br ∈ searchBM25 storage bmScore query topK preFilteredDocs) :
    br.document ∈ preFilteredDocs := by
  unfold searchBM25 at h
  cases storage with
  | none => simp at h
  | some mainDocs =>
    have hlen : preFilteredDocs.length > 0 :=
      List.length_pos.mpr hpre
    have h' : br ∈ (if preFilteredDocs.length > 0 then
        ((bm25Invoke bmScore (sanitizeQueryForBM25 query) preFilteredDocs
          topK).enum).map
          (fun id => (⟨id.2, 1 - (id.1 : ℚ) * (1 / 10)⟩ : BM25Result))
      else
        ((bm25Invoke bmScore (sanitizeQueryForBM25 query) mainDocs
          topK).enum).map
          (fun id => (⟨id.2, 1 - (id.1 : ℚ) * (1 / 10)⟩ : BM25Result))) := h
    rw [if_pos hlen] at h'
    rcases List.mem_map.mp h' with ⟨id, hid, hbr⟩
    have hfacts := mem_enumFrom_facts _ 0 id hid
    have hdoc : id.2 ∈ bm25Invoke bmScore (sanitizeQueryForBM25 query)
        preFilteredDocs topK := hfacts.2
    unfold bm25Invoke at hdoc
    have h2 := (List.take_sublist _ _).subset hdoc
    have h3 := (mem_sortDescBy _ _ _).mp h2
    rw [← hbr]
    exact h3

theorem semanticFold_docP (P : Doc → Prop) (srs : List (Doc × ℚ))
    (hs : ∀ ds ∈ srs, P ds.1) :
    ∀ e ∈ semanticFold srs, P e.2.document := by
  have general : ∀ (l : List (Doc × ℚ))
      (m : List (Option String × SearchResult)),
      (∀ e ∈ m, P e.2.document) → (∀ ds ∈ l, P ds.1) →
      ∀ e ∈ l.foldl (fun m ds =>
        mapInsert m (searchDocKey ds.1) ⟨ds.1, ds.2, "semantic"⟩) m,
        P e.2.document := by
    intro l
    induction l with
    | nil =>
      intro m hm _ e he
      exact hm e (by simpa using he)
    | cons ds rest ih =>
      intro m hm hl e he
      simp only [List.foldl_cons] at he
      refine ih _ ?_ (fun x hx => hl x (List.mem_cons.mpr (Or.inr hx))) e he
      intro x hx
      rcases mem_mapInsert _ _ _ _ hx with h1 | h1
      · rw [h1]
        exact hl ds (List.mem_cons_self _ _)
      · exact hm x h1
  intro e he
  exact general srs [] (by simp) hs e he

theorem bm25Fold_docP (P : Doc → Prop) (brs : List BM25Result)
    (m : List (Option String × SearchResult))
    (hm : ∀ e ∈ m, P e.2.document) (hb : ∀ br ∈ brs, P br.document) :
    ∀ e ∈ bm25Fold brs m, P e.2.document := by
  have general : ∀ (l : List BM25Result)
      (m : List (Option String × SearchResult)),
      (∀ e ∈ m, P e.2.document) → (∀ br ∈ l, P br.document) →
      ∀ e ∈ l.foldl (fun m br =>
        match mapGet? m (searchDocKey br.document) with
        | some existing =>
            mapInsert m (searchDocKey br.document)
              ⟨existing.document, (existing.score + br.score) / 2,
                existing.source⟩
        | none =>
            mapInsert m (searchDocKey br.document)
              ⟨br.document, br.score, "bm25"⟩) m,
        P e.2.document := by
    intro l
    induction l with
    | nil =>
      intro m hm _ e he
      exact hm e (by simpa using he)
    | cons br rest ih =>
      intro m hm hl e he
      simp only [List.foldl_cons] at he
      refine ih _ ?_ (fun x hx => hl x (List.mem_cons.mpr (Or.inr hx))) e he
      intro x hx
      revert hx
      cases hget : mapGet? m (searchDocKey br.document) with
      | some existing =>
        intro hx
        have hx' : x ∈ mapInsert m (searchDocKey br.document)
            (⟨existing.document, (existing.score + br.score) / 2,
              existing.source⟩ : SearchResult) := hx
        rcases mem_mapInsert _ _ _ _ hx' with h1 | h1
        · rw [h1]
          exact hm (searchDocKey br.document, existing)
            (mem_of_mapGet? m (searchDocKey br.document) existing hget)
        · exact hm x h1
      | none =>
        intro hx
        have hx' : x ∈ mapInsert m (searchDocKey br.document)
            (⟨br.document, br.score, "bm25"⟩ : SearchResult) := hx
        rcases mem_mapInsert _ _ _ _ hx' with h1 | h1
        · rw [h1]
          exact hl br (List.mem_cons_self _ _)
        · exact hm x h1
  exact general brs m hm hb

theorem docMatchesClient_some (cid : Nat) (d : Doc)
    (h : docMatchesClient (some cid) d = true) :
    d.metadata.clientId = some cid :=
  of_decide_eq_true h

/-- C1 (amended): for a hybrid search over the transcript corpus with a
nonzero client scope `A`, every returned chunk has `clientScope = A` —
unconditionally for the Pinecone dual-index executor (all paths, including
its catch-all fallback to `[]`), and for the store-based executor provided
the transcript store holds at least one chunk of scope `A` (when the
client's pre-filtered set is empty, the BM25 fallback consults the global
index instead — see the counterexample). -/
theorem hybridSearch_client_isolation :
    (∀ (ctx : PineconeCtx) (query : String) (A topK : Nat), A ≠ 0 →
      ∀ r ∈ performPineconeHybridSearch ctx query CorpusType.transcripts
        (some A) topK,
        r.document.metadata.clientId = some A) ∧
    (∀ (ctx : StoreCtx) (query : String) (A topK : Nat) (docs : List Doc)
        (d0 : Doc) (res : List SearchResult),
      ctx.transcriptVectorStore = some docs → d0 ∈ docs →
      d0.metadata.clientId = some A →
      performHybridSearch ctx query A CorpusType.transcripts topK = .ok res →
      ∀ r ∈ res, r.document.metadata.clientId = some A) := by
  constructor
  · intro ctx query A topK hA r hr
    have hfilt : pineFilter CorpusType.transcripts (some A) = some A := by
      unfold pineFilter
      rw [if_pos ⟨rfl, by simp [optNatTruthy, hA]⟩]
    unfold performPineconeHybridSearch at hr
    revert hr
    cases hbody : performPineconeHybridSearchBody ctx query
        CorpusType.transcripts (some A) topK with
    | error e =>
      intro hr
      simp at hr
    | ok res =>
      intro hr
      have hr' : r ∈ res := hr
      rcases pineBody_ok_shape _ _ _ _ _ _ hbody with ⟨dm, sm, hres, hprov⟩
      subst hres
      have hr2 := (List.take_sublist _ _).subset hr'
      rcases combineSearchResults_mem _ _ _ _ _ hr2 with ⟨mt, hmt, md, hmd, hdoc⟩
      rcases hprov mt hmt with ⟨e, hf, hmd2⟩
      rw [hfilt] at hf
      rcases matchesFilter_some _ _ hf with ⟨md', hemd, hcid⟩
      rw [hmd, hemd] at hmd2
      have hmdeq : md = md' := by injection hmd2
      rw [hdoc, hmdeq]
      exact hcid
  · intro ctx query A topK docs d0 res hstore hd0 hd0A hok r hr
    unfold performHybridSearch at hok
    rw [show (if CorpusType.transcripts = CorpusType.documents
        then ctx.docVectorStore else ctx.transcriptVectorStore) = some docs
      from by rw [if_neg (by decide)]; exact hstore] at hok
    have hok' : Except.ok (performHybridSearchCombine ctx query A
        CorpusType.transcripts topK docs) = Except.ok res := hok
    have hres : res = performHybridSearchCombine ctx query A
        CorpusType.transcripts topK docs := by
      cases hok'
      rfl
    subst hres
    have hr' : r ∈ (sortDescBy (fun r => r.score)
        ((bm25Fold
          (searchBM25 ctx.transcriptBM25 ctx.bmScore query topK
            (similaritySearch docs ctx.simScore "" 1000 (some A)))
          (semanticFold (similaritySearchWithScore docs ctx.simScore query
            topK (some A)))).map Prod.snd)).take topK := hr
    have h2 := (List.take_sublist _ _).subset hr'
    have h3 := (mem_sortDescBy _ _ _).mp h2
    rcases List.mem_map.mp h3 with ⟨e, he, her⟩
    have hm := semanticFold_docP (fun d => d.metadata.clientId = some A)
      (similaritySearchWithScore docs ctx.simScore query topK (some A))
      (fun ds hds => docMatchesClient_some A ds.1
        (similaritySearchWithScore_mem _ _ _ _ _ _ hds).2)
    have hb : ∀ br ∈ searchBM25 ctx.transcriptBM25 ctx.bmScore query topK
        (similaritySearch docs ctx.simScore "" 1000 (some A)),
        (fun d => d.metadata.clientId = some A) br.document := by
      intro br hbr
      have hpre : similaritySearch docs ctx.simScore "" 1000 (some A) ≠ [] :=
        similaritySearch_ne_nil docs ctx.simScore "" (some A) d0 hd0
          (by simp [docMatchesClient, hd0A])
      have hmem := searchBM25_preFiltered_mem _ _ _ _ _ br hpre hbr
      exact docMatchesClient_some A br.document
        (similaritySearch_mem _ _ _ _ _ _ hmem).2
    have := bm25Fold_docP (fun d => d.metadata.clientId = some A) _ _ hm hb e he
    rw [← her]
    exact this

/-- A transcript chunk belonging to client 2. -/
def docClient2 : Doc :=
  ⟨"robert said something",
   { source := some "t2", fileName := some "robert-01-01.pdf",
     chunkType := "transcript", clientId := some 2 }⟩

/-- Store context in which client 1 has no transcript chunks while the
global BM25 transcript index holds client 2's chunk. -/
def leakCtx : StoreCtx :=
  { docVectorStore := none,
    transcriptVectorStore := some [docClient2],
    docBM25 := none,
    transcriptBM25 := some [docClient2],
    simScore := fun _ _ => 0,
    bmScore := fun _ _ => 0 }

/-- Counterexample to C1 as stated: a transcript hybrid search scoped to
client 1 returns client 2's chunk, because the pre-filtered client set is
empty and `searchBM25` falls back to the persistent (global) index. -/
theorem hybridSearch_client_isolation_counterexample :
    (performHybridSearch leakCtx "medication" 1 CorpusType.transcripts 10).map
        (List.map (fun r => (r.document, r.source))) =
      .ok [(docClient2, "bm25")] ∧
    docClient2.metadata.clientId = some 2 ∧ some 2 ≠ some (1 : Nat) := by
  refine ⟨by rfl, by rfl, by decide⟩

/-- A transcript chunk belonging to client 1, as a store document. -/
def isoDoc : Doc :=
  ⟨"client one says",
   { source := some "t1", chunkType := "transcript", clientId := some 1 }⟩

/-- Metadata of the same chunk as stored in Pinecone. -/
def isoMeta : ChunkMetadata :=
  { source := some "t1", chunkType := "transcript", clientId := some 1,
    text := some "client one says" }

/-- The same chunk as a Pinecone entry. -/
def isoEntry : PineconeEntry := ⟨"t1", some isoMeta⟩

def isoPineCtx : PineconeCtx :=
  { docDenseIndex := none, docSparseIndex := none,
    transcriptDenseIndex := some [isoEntry],
    transcriptSparseIndex := some [isoEntry],
    embedOk := fun _ => true,
    denseScore := fun _ _ => 1, sparseScore := fun _ _ => 1,
    sparseEmbed := fun _ => ([0], [1]),
    denseWeight := 1 / 2, sparseWeight := 1 / 2 }

def isoStoreCtx : StoreCtx :=
  { docVectorStore := none,
    transcriptVectorStore := some [isoDoc],
    docBM25 := none,
    transcriptBM25 := some [isoDoc],
    simScore := fun _ _ => 1,
    bmScore := fun _ _ => 1 }

/-- Witness for (amended) C1 at concrete stores holding one client-1
chunk. -/
theorem hybridSearch_client_isolation_witness :
    ((performPineconeHybridSearch isoPineCtx "q" CorpusType.transcripts
        (some 1) 10).all
      (fun r => r.document.metadata.clientId == some 1) = true) ∧
    ((performHybridSearchCombine isoStoreCtx "q" 1 CorpusType.transcripts 10
        [isoDoc]).all
      (fun r => r.document.metadata.clientId == some 1) = true) := by
  constructor
  · apply List.all_eq_true.mpr
    intro r hr
    simpa using hybridSearch_client_isolation.1 isoPineCtx "q" 1 10
      (by decide) r hr
  · apply List.all_eq_true.mpr
    intro r hr
    have hok : performHybridSearch isoStoreCtx "q" 1 CorpusType.transcripts 10 =
        .ok (performHybridSearchCombine isoStoreCtx "q" 1
          CorpusType.transcripts 10 [isoDoc]) := rfl
    simpa using hybridSearch_client_isolation.2 isoStoreCtx "q" 1 10
      [isoDoc] isoDoc _ rfl (by decide) (by decide) hok r hr

/-! ## C8 / C9: executor output shape and uninitialized resources -/

theorem combineSearchResults_sorted (dw sw : ℚ)
    (dm sm : List PineconeMatch) :
    (combineSearchResults dw sw dm sm).Sorted
      (descBy (fun r => r.combinedScore)) :=
  sortDescBy_sorted _ _

/-- C8 (amended): both hybrid search executors sort their candidate list
by combined score (the store variant: by merged score) descending and
truncate it to `topK` before returning — the union is not returned
unsorted/untruncated; the fusion stage is not the only ranking point. -/
theorem hybrid_executor_output_sorted_truncated :
    (∀ (ctx : PineconeCtx) (query : String) (type : CorpusType)
        (userId : Option Nat) (topK : Nat),
      (performPineconeHybridSearch ctx query type userId topK).Sorted
          (descBy (fun r => r.combinedScore)) ∧
      (performPineconeHybridSearch ctx query type userId topK).length ≤
        topK) ∧
    (∀ (ctx : StoreCtx) (query : String) (userId : Nat) (type : CorpusType)
        (topK : Nat) (res : List SearchResult),
      performHybridSearch ctx query userId type topK = .ok res →
      res.Sorted (descBy (fun r => r.score)) ∧ res.length ≤ topK) := by
  constructor
  · intro ctx query type userId topK
    cases hbody : performPineconeHybridSearchBody ctx query type userId
        topK with
    | error e =>
      have hval : performPineconeHybridSearch ctx query type userId topK =
          [] := by
        unfold performPineconeHybridSearch
        rw [hbody]
      rw [hval]
      exact ⟨List.sorted_nil, by simp⟩
    | ok res =>
      have hval : performPineconeHybridSearch ctx query type userId topK =
          res := by
        unfold performPineconeHybridSearch
        rw [hbody]
      rw [hval]
      rcases pineBody_ok_shape _ _ _ _ _ _ hbody with ⟨dm, sm, hres, _⟩
      subst hres
      exact ⟨List.Pairwise.sublist (List.take_sublist _ _)
          (combineSearchResults_sorted _ _ _ _),
        List.length_take_le _ _⟩
  · intro ctx query userId type topK res hok
    unfold performHybridSearch at hok
    cases hstore : (if type = CorpusType.documents then ctx.docVectorStore
        else ctx.transcriptVectorStore) with
    | none =>
      rw [hstore] at hok
      simp at hok
    | some docs =>
      rw [hstore] at hok
      have hres : res = performHybridSearchCombine ctx query userId type
          topK docs := by
        cases hok
        rfl
      subst hres
      unfold performHybridSearchCombine
      exact ⟨List.Pairwise.sublist (List.take_sublist _ _)
          (sortDescBy_sorted _ _),
        List.length_take_le _ _⟩

/-- A document-corpus chunk "a" for the C8 counterexample. -/
def c8MetaA : ChunkMetadata :=
  { source := some "a", chunkType := "document", text := some "alpha" }

/-- A document-corpus chunk "b" for the C8 counterexample. -/
def c8MetaB : ChunkMetadata :=
  { source := some "b", chunkType := "document", text := some "beta" }

/-- Pinecone context where "a" outranks "b" densely (scores 1 vs 4/5) while
only "b" has a sparse hit: combined scores are 1/2 for "a", 9/10 for "b". -/
def c8Ctx : PineconeCtx :=
  { docDenseIndex := some [⟨"a", some c8MetaA⟩, ⟨"b", some c8MetaB⟩],
    docSparseIndex := some [⟨"b", some c8MetaB⟩],
    transcriptDenseIndex := none, transcriptSparseIndex := none,
    embedOk := fun _ => true,
    denseScore := fun _ id => if id = "a" then 1 else 4 / 5,
    sparseScore := fun _ _ => 1,
    sparseEmbed := fun _ => ([0], [1]),
    denseWeight := 1 / 2, sparseWeight := 1 / 2 }

/-- Counterexample to C8 as stated: the executor reorders the union by
combined score ("b" before the densely-first "a") and, at `topK = 1`,
truncates the union member "a" away entirely. -/
theorem hybrid_executor_output_sorted_truncated_counterexample :
    (performPineconeHybridSearch c8Ctx "q" CorpusType.documents none 2).map
        (fun r => r.document.metadata.source) = [some "b", some "a"] ∧
    (performPineconeHybridSearch c8Ctx "q" CorpusType.documents none 1).map
        (fun r => r.document.metadata.source) = [some "b"] := by
  constructor <;>
    norm_num [performPineconeHybridSearch, performPineconeHybridSearchBody,
      c8Ctx, c8MetaA, c8MetaB, pineconeQuery, matchesFilter, pineFilter,
      optNatTruthy, combineSearchResults, denseDocsFold, sparseDocsFold,
      mapInsert, mapGetD, mapGet?, mapHas, uniqueList, sortDescBy, descBy,
      List.insertionSort, List.orderedInsert,
      show ("b" : String) ≠ "a" from by decide,
      show ("a" : String) ≠ "b" from by decide]

/-- Witness for (amended) C8 at the concrete single-chunk contexts. -/
theorem hybrid_executor_output_sorted_truncated_witness :
    (performPineconeHybridSearch isoPineCtx "q" CorpusType.transcripts
        (some 1) 10).length ≤ 10 ∧
    (performHybridSearchCombine isoStoreCtx "q" 1 CorpusType.transcripts 10
        [isoDoc]).length ≤ 10 :=
  ⟨(hybrid_executor_output_sorted_truncated.1 isoPineCtx "q"
      CorpusType.transcripts (some 1) 10).2,
   (hybrid_executor_output_sorted_truncated.2 isoStoreCtx "q" 1
      CorpusType.transcripts 10 _ rfl).2⟩

/-- C9 (amended): a never-initialized vector store makes the store-based
executor raise eagerly, but a never-initialized Pinecone dense index only
makes the body throw — the surrounding catch-all swallows it into `[]`. -/
theorem uninitialized_store_raises :
    (∀ (ctx : StoreCtx) (query : String) (userId : Nat) (type : CorpusType)
        (topK : Nat),
      (if type = CorpusType.documents then ctx.docVectorStore
        else ctx.transcriptVectorStore) = none →
      performHybridSearch ctx query userId type topK = .error ()) ∧
    (∀ (ctx : PineconeCtx) (query : String) (type : CorpusType)
        (userId : Option Nat) (topK : Nat),
      (if type = CorpusType.documents then ctx.docDenseIndex
        else ctx.transcriptDenseIndex) = none →
      performPineconeHybridSearch ctx query type userId topK = []) := by
  constructor
  · intro ctx query userId type topK hnone
    unfold performHybridSearch
    rw [hnone]
  · intro ctx query type userId topK hnone
    unfold performPineconeHybridSearch performPineconeHybridSearchBody
    rw [hnone]
    by_cases hemb : ctx.embedOk query = false
    · rw [if_pos hemb]
    · rw [if_neg hemb]

/-- Counterexample to C9 as stated: with the document dense index never
initialized, the Pinecone executor's body throws, but the executor itself
silently returns `[]` instead of propagating the error. -/
theorem uninitialized_store_raises_counterexample :
    isoPineCtx.docDenseIndex = none ∧
    performPineconeHybridSearchBody isoPineCtx "q" CorpusType.documents
      none 10 = .error () ∧
    performPineconeHybridSearch isoPineCtx "q" CorpusType.documents
      none 10 = [] :=
  ⟨rfl, rfl, rfl⟩

/-- Witness for (amended) C9 at concrete uninitialized contexts. -/
theorem uninitialized_store_raises_witness :
    performHybridSearch leakCtx "q" 1 CorpusType.documents 10 =
      .error () ∧
    performPineconeHybridSearch c8Ctx "q" CorpusType.transcripts
      (some 1) 10 = [] :=
  ⟨uninitialized_store_raises.1 leakCtx "q" 1 CorpusType.documents 10 rfl,
   uninitialized_store_raises.2 c8Ctx "q" CorpusType.transcripts
     (some 1) 10 rfl⟩

/-! ## Retrieval orchestrator (`retrieveContext`, part_008)

The orchestrator's collaborators (intent analysis, query embedding, the
hybrid search executor, the parent-document retriever, the relevance
verifier, query reformulation, chat completion) are oracle parameters;
fallible ones return `Except Unit`. The `while (attempts < maxAttempts)`
loop is encoded by recursion on the remaining-iteration count
`maxAttempts - attempts`. -/

/-- Result of `analyzeQueryIntent`. -/
structure QueryIntent where
  queryType : String
  confidence : ℚ
  deriving DecidableEq

/-- One entry of `RetrievalResult.sources` (types/index.ts). -/
structure RetrievalSource where
  type : String
  id : Option String
  score : ℚ
  deriving DecidableEq

/-- `RetrievalResult` (types/index.ts). -/
structure RetrievalResult where
  content : String
  confidence : ℚ
  sources : List RetrievalSource
  searchStrategy : String
  deriving DecidableEq

/-- The orchestrator's collaborators. `docRetriever` is `none` when never
initialized; its `getRelevantDocuments` is modelled as total (the
surrounding per-chunk try/catch falls back to the child chunk either
way). -/
structure OrchestratorOracles where
  analyzeQueryIntent : String → QueryIntent
  embedQuery : String → Except Unit Unit
  search : String → Nat → CorpusType → Except Unit (List SearchResult)
  docRetriever : Option (String → List Doc)
  verifyRelevance : List Doc → String → Bool
  reformulateQuery : String → Nat → String
  chatComplete : String → Except Unit String

/-- `userId === 'nathan' ? 1 : userId === 'robert' ? 2 : 0`. -/
def clientIdOf (userId : Option String) : Nat :=
  if userId = some "nathan" then 1
  else if userId = some "robert" then 2
  else 0

/-- The empty `'failed'` result returned on the early-exit paths. -/
def failedResult : RetrievalResult := ⟨"", 0, [], "failed"⟩

/-- Whether the character list `pat` starts the character list given
second. -/
def charsStartWith : List Char → List Char → Bool
  | [], _ => true
  | _ :: _, [] => false
  | p :: ps, c :: cs => p == c && charsStartWith ps cs

/-- Whether `pat` occurs contiguously in the haystack (JS
`String.prototype.includes`). -/
def charsContains (pat : List Char) : List Char → Bool
  | [] => charsStartWith pat []
  | c :: rest => charsStartWith pat (c :: rest) || charsContains pat rest

/-- `s.includes(pat)`. -/
def strIncludes (s pat : String) : Bool := charsContains pat.toList s.toList

/-- `s.toLowerCase()`. -/
def strLower (s : String) : String := String.mk (s.toList.map Char.toLower)

/-- `s.substring(0, n)`. -/
def strTake (s : String) (n : Nat) : String := String.mk (s.toList.take n)

/-- `results.slice(0, 3).map(r => r.document.pageContent).join(' ')`. -/
def joinContents (rs : List SearchResult) : String :=
  String.intercalate " " ((rs.take 3).map (fun r => r.document.pageContent))

/-- The per-branch search dispatch of `retrieveContext` (part_008 lines
83-200): `Sum.inl` is an early `return`, `Sum.inr` the `searchResults`
the attempt continues with; `.error` is a thrown error reaching the
surrounding catch. -/
def dispatchSearch (O : OrchestratorOracles) (userId : Option String)
    (clientId : Nat) (queryType : String) (q : String) :
    Except Unit (RetrievalResult ⊕ List SearchResult) :=
  if queryType = "document" then
    (O.search q 0 CorpusType.documents).map Sum.inr
  else if queryType = "transcript" then
    if optStrTruthy userId = false then .ok (Sum.inl failedResult)
    else (O.search q clientId CorpusType.transcripts).map Sum.inr
  else if queryType = "document_then_transcript" then
    match O.search q 0 CorpusType.documents with
    | .error e => .error e
    | .ok docResults =>
      if docResults.length > 0 ∧ optStrTruthy userId = true then
        match O.search
            (q ++ " evidence of: " ++ strTake (joinContents docResults) 500)
            clientId CorpusType.transcripts with
        | .error e => .error e
        | .ok transcriptResults =>
            .ok (Sum.inr (docResults.take 2 ++ transcriptResults))
      else .ok (Sum.inr docResults)
  else if queryType = "transcript_then_document" then
    if optStrTruthy userId = false then .ok (Sum.inl failedResult)
    else
      match O.search q clientId CorpusType.transcripts with
      | .error e => .error e
      | .ok transcriptResults =>
        if transcriptResults.length > 0 then
          match O.search
              (q ++ " for client situation: " ++
                strTake (joinContents transcriptResults) 500)
              0 CorpusType.documents with
          | .error e => .error e
          | .ok docResults =>
              .ok (Sum.inr (transcriptResults.take 2 ++ docResults))
        else .ok (Sum.inl failedResult)
  else
    if optStrTruthy userId = true ∧
        (strIncludes (strLower q) "recommend" = true ∨
          strIncludes (strLower q) "suggest" = true ∨
          strIncludes (strLower q) "program" = true) then
      match O.search
          (userId.getD "" ++
            " client background needs goals progress treatment status situation")
          clientId CorpusType.transcripts with
      | .error e => .error e
      | .ok userContextResults =>
        if userContextResults.length > 0 then
          match O.search
              (q ++ " for client with: " ++
                strTake (joinContents userContextResults) 500)
              0 CorpusType.documents with
          | .error e => .error e
          | .ok docResults =>
              .ok (Sum.inr (userContextResults.take 2 ++ docResults))
        else
          match O.search q 0 CorpusType.documents with
          | .error e => .error e
          | .ok docResults =>
            match O.search q clientId CorpusType.transcripts with
            | .error e => .error e
            | .ok transcriptResults =>
                .ok (Sum.inr (docResults ++ transcriptResults))
    else
      match O.search q 0 CorpusType.documents with
      | .error e => .error e
      | .ok docResults =>
        match (if optStrTruthy userId = true then
            O.search q clientId CorpusType.transcripts
          else .ok []) with
        | .error e => .error e
        | .ok transcriptResults =>
            .ok (Sum.inr (docResults ++ transcriptResults))

/-- `searchResults.map(result => ({document, semanticScore, bm25Score,
combinedScore}))`. -/
def toHybrid (rs : List SearchResult) : List HybridSearchResult :=
  rs.map (fun r =>
    ⟨r.document,
      if r.source = "semantic" then r.score else 0,
      if r.source = "bm25" then r.score else 0,
      r.score⟩)

/-- Parent expansion of one reranked child chunk (part_008 lines 230-250). -/
def expandChunk (docRetriever : Option (String → List Doc))
    (childDoc : Doc) : Doc :=
  if optStrTruthy childDoc.metadata.parentId = true ∧
      childDoc.metadata.chunkType = "document" then
    match docRetriever with
    | some retrieve =>
      match retrieve childDoc.pageContent with
      | [] => childDoc
      | p :: _ => p
    | none => childDoc
  else childDoc

/-- The answer-generation prompt (part_008 lines 265-277). -/
def buildPrompt (finalChunks : List Doc) (q : String) : String :=
  "You are an expert RAG assistant specializing in personalized " ++
  "recommendations. The context below contains VERIFIED RELEVANT " ++
  "information including client background and relevant guidance " ++
  "documents.\n\nContext:\n" ++
  String.intercalate "\n\n" (finalChunks.map (fun c => c.pageContent)) ++
  "\n\nUser Question: " ++ q ++
  "\n\nCRITICAL INSTRUCTIONS: \n" ++
  "1. Answer the question based on the context provided only.\n" ++
  "2. Don\x27t add any extra line in starting or ending of the answer.\n" ++
  "3 ans should be very specific and to the point.\n\nAnswer:"

/-- Outcome of one iteration of the retry loop: an early/final `return`, a
`continue` after reformulating the query, or falling off the iteration
without returning (only conceivable when `attempts > maxAttempts`). -/
inductive AttemptOutcome
  | done (r : RetrievalResult)
  | reform (q : String)
  | fallthrough
  deriving DecidableEq

/-- One iteration of the `while` loop of `retrieveContext` (part_008 lines
61-313) at `attempts = a` (already incremented), on query `q`; `.error` is
an exception reaching the iteration's catch. -/
def attemptBody (O : OrchestratorOracles) (userId : Option String)
    (maxAttempts : Nat) (q : String) (a : Nat) :
    Except Unit AttemptOutcome :=
  match O.embedQuery q with
  | .error e => .error e
  | .ok _ =>
    match dispatchSearch O userId (clientIdOf userId)
        (O.analyzeQueryIntent q).queryType q with
    | .error e => .error e
    | .ok (Sum.inl r) => .ok (.done r)
    | .ok (Sum.inr searchResults) =>
      let hybridResults := toHybrid searchResults
      if hybridResults.length = 0 then
        if a < maxAttempts then .ok (.reform (O.reformulateQuery q a))
        else .ok (.done failedResult)
      else
        let finalChunks := (reciprocalRankFusion hybridResults).map
          (expandChunk O.docRetriever)
        if O.verifyRelevance finalChunks q = true then
          match O.chatComplete (buildPrompt finalChunks q) with
          | .error e => .error e
          | .ok answer =>
            .ok (.done ⟨answer, (O.analyzeQueryIntent q).confidence,
              (uniqueList (finalChunks.map (fun c => c.metadata.fileName))).map
                (fun src => ⟨"document", src, 1⟩),
              "hybrid"⟩)
        else if a < maxAttempts then .ok (.reform (O.reformulateQuery q a))
        else if a = maxAttempts then
          .ok (.done ⟨"", 0, [], "max-attempts-non-relevant"⟩)
        else .ok .fallthrough

/-- A completed run: the returned result plus the number of attempt
iterations executed and of `reformulateQuery` calls made. -/
structure OrchestratorRun where
  result : RetrievalResult
  attempts : Nat
  reformulations : Nat
  deriving DecidableEq

/-- The retry loop, by recursion on the remaining iteration count
(`fuel = maxAttempts - attempts` at every call): fuel `0` means the loop
guard fails and the post-loop `'max-attempts-reached'` fallback is
returned. A caught error re-throws when `attempts === maxAttempts` and is
otherwise swallowed into the next iteration. -/
def retrieveLoop (O : OrchestratorOracles) (userId : Option String)
    (maxAttempts : Nat) :
    Nat → String → Nat → Nat → Except Unit OrchestratorRun
  | 0, _, attempts, reforms =>
      .ok ⟨⟨"", 0, [], "max-attempts-reached"⟩, attempts, reforms⟩
  | fuel + 1, q, attempts, reforms =>
    match attemptBody O userId maxAttempts q (attempts + 1) with
    | .ok (.done r) => .ok ⟨r, attempts + 1, reforms⟩
    | .ok (.reform q') =>
        retrieveLoop O userId maxAttempts fuel q' (attempts + 1) (reforms + 1)
    | .ok .fallthrough =>
        retrieveLoop O userId maxAttempts fuel q (attempts + 1) reforms
    | .error e =>
        if attempts + 1 = maxAttempts then .error e
        else retrieveLoop O userId maxAttempts fuel q (attempts + 1) reforms

/-- `retrieveContext`, instrumented with the attempt/reformulation
counts. -/
def retrieveRun (O : OrchestratorOracles) (query : String)
    (userId : Option String) (maxAttempts : Nat := 3) :
    Except Unit OrchestratorRun :=
  retrieveLoop O userId maxAttempts maxAttempts query 0 0

/-- `retrieveContext` (part_008 lines 49-329). -/
def retrieveContext (O : OrchestratorOracles) (query : String)
    (userId : Option String) (maxAttempts : Nat := 3) :
    Except Unit RetrievalResult :=
  (retrieveRun O query userId maxAttempts).map (fun run => run.result)

theorem dispatchSearch_inl (O : OrchestratorOracles) (userId : Option String)
    (clientId : Nat) (queryType : String) (q : String) (r : RetrievalResult)
    (h : dispatchSearch O userId clientId queryType q = .ok (Sum.inl r)) :
    r = failedResult := by
  unfold dispatchSearch at h
  simp only [Except.map] at h
  repeat' split at h
  all_goals simp_all

theorem attemptBody_reform_lt (O : OrchestratorOracles)
    (userId : Option String) (maxAttempts : Nat) (q : String) (a : Nat)
    (s : String)
    (h : attemptBody O userId maxAttempts q a = .ok (.reform s)) :
    a < maxAttempts := by
  simp only [attemptBody] at h
  repeat' split at h
  all_goals first | assumption | simp_all

theorem attemptBody_fallthrough_gt (O : OrchestratorOracles)
    (userId : Option String) (maxAttempts : Nat) (q : String) (a : Nat)
    (h : attemptBody O userId maxAttempts q a = .ok .fallthrough) :
    maxAttempts < a := by
  simp only [attemptBody] at h
  repeat' split at h
  all_goals first | omega | simp_all

theorem attemptBody_done_main (O : OrchestratorOracles)
    (userId : Option String) (maxAttempts : Nat) (q : String) (a : Nat)
    (r : RetrievalResult)
    (h : attemptBody O userId maxAttempts q a = .ok (.done r)) :
    r = failedResult ∨ r = ⟨"", 0, [], "max-attempts-non-relevant"⟩ ∨
      (r.searchStrategy = "hybrid" ∧
        ∃ chunks, O.verifyRelevance chunks q = true) := by
  cases hE : O.embedQuery q with
  | error e =>
    simp only [attemptBody, hE] at h
    simp at h
  | ok u =>
    simp only [attemptBody, hE] at h
    split at h
    · simp at h
    · rename_i x r0 heq
      simp only [Except.ok.injEq, AttemptOutcome.done.injEq] at h
      left
      rw [← h]
      exact dispatchSearch_inl _ _ _ _ _ _ heq
    · rename_i x searchResults heq
      split at h
      · split at h
        · simp at h
        · simp only [Except.ok.injEq, AttemptOutcome.done.injEq] at h
          left
          exact h.symm
      · split at h
        · rename_i hver
          split at h
          · simp at h
          · simp only [Except.ok.injEq, AttemptOutcome.done.injEq] at h
            right; right
            refine ⟨?_, _, hver⟩
            rw [← h]
        · split at h
          · simp at h
          · split at h
            · simp only [Except.ok.injEq, AttemptOutcome.done.injEq] at h
              right; left
              exact h.symm
            · simp at h

theorem attemptBody_done_content (O : OrchestratorOracles)
    (userId : Option String) (maxAttempts : Nat) (q : String) (a : Nat)
    (r : RetrievalResult)
    (hverify : ∀ chunks s, O.verifyRelevance chunks s = false)
    (h : attemptBody O userId maxAttempts q a = .ok (.done r)) :
    r.content = "" := by
  rcases attemptBody_done_main O userId maxAttempts q a r h with h1 | h1 | h1
  · rw [h1]
    rfl
  · rw [h1]
  · rcases h1.2 with ⟨chunks, hv⟩
    rw [hverify] at hv
    cases hv

/-- If every iteration at an in-range attempt count either reformulates
(while below the bound) or returns the fixed result `R` (at the bound),
the loop returns `R` after exactly `maxAttempts` attempts and
`maxAttempts - attempts - 1` further reformulations. -/
theorem retrieveLoop_uniform (O : OrchestratorOracles)
    (userId : Option String) (maxAttempts : Nat) (R : RetrievalResult)
    (hbody : ∀ s a, a + 1 ≤ maxAttempts →
      attemptBody O userId maxAttempts s (a + 1) =
        if a + 1 < maxAttempts then
          .ok (.reform (O.reformulateQuery s (a + 1)))
        else .ok (.done R)) :
    ∀ fuel q attempts reforms, fuel + attempts = maxAttempts → 1 ≤ fuel →
      retrieveLoop O userId maxAttempts fuel q attempts reforms =
        .ok ⟨R, maxAttempts, reforms + (fuel - 1)⟩ := by
  intro fuel
  induction fuel with
  | zero =>
    intro q attempts reforms _ h1
    exact absurd h1 (by omega)
  | succ f ih =>
    intro q attempts reforms hsum _
    have hle : attempts + 1 ≤ maxAttempts := by omega
    have hstep : retrieveLoop O userId maxAttempts (f + 1) q attempts
        reforms =
        match attemptBody O userId maxAttempts q (attempts + 1) with
        | .ok (.done r) => .ok ⟨r, attempts + 1, reforms⟩
        | .ok (.reform q') =>
            retrieveLoop O userId maxAttempts f q' (attempts + 1)
              (reforms + 1)
        | .ok .fallthrough =>
            retrieveLoop O userId maxAttempts f q (attempts + 1) reforms
        | .error e =>
            if attempts + 1 = maxAttempts then .error e
            else retrieveLoop O userId maxAttempts f q (attempts + 1)
              reforms := rfl
    rw [hstep, hbody q attempts hle]
    by_cases hlt : attempts + 1 < maxAttempts
    · rw [if_pos hlt]
      show retrieveLoop O userId maxAttempts f
          (O.reformulateQuery q (attempts + 1)) (attempts + 1)
          (reforms + 1) = _
      rw [ih (O.reformulateQuery q (attempts + 1)) (attempts + 1)
        (reforms + 1) (by omega) (by omega)]
      have harith : reforms + 1 + (f - 1) = reforms + (f + 1 - 1) := by
        omega
      rw [harith]
    · rw [if_neg hlt]
      show Except.ok (⟨R, attempts + 1, reforms⟩ : OrchestratorRun) = _
      have h1 : attempts + 1 = maxAttempts := by omega
      have h2 : f = 0 := by omega
      subst h2
      rw [h1]
      simp

theorem retrieveLoop_content_empty (O : OrchestratorOracles)
    (userId : Option String) (maxAttempts : Nat)
    (hverify : ∀ chunks s, O.verifyRelevance chunks s = false) :
    ∀ fuel q attempts reforms run,
      retrieveLoop O userId maxAttempts fuel q attempts reforms = .ok run →
      run.result.content = "" := by
  intro fuel
  induction fuel with
  | zero =>
    intro q attempts reforms run h
    simp only [retrieveLoop, Except.ok.injEq] at h
    rw [← h]
  | succ f ih =>
    intro q attempts reforms run h
    cases hb : attemptBody O userId maxAttempts q (attempts + 1) with
    | ok outcome =>
      cases outcome with
      | done r =>
        simp only [retrieveLoop, hb, Except.ok.injEq] at h
        have hr := attemptBody_done_content O userId maxAttempts q
          (attempts + 1) r hverify hb
        rw [← h]
        exact hr
      | reform q' =>
        simp only [retrieveLoop, hb] at h
        exact ih q' (attempts + 1) (reforms + 1) run h
      | fallthrough =>
        simp only [retrieveLoop, hb] at h
        exact ih q (attempts + 1) reforms run h
    | error e =>
      simp only [retrieveLoop, hb] at h
      by_cases hm : attempts + 1 = maxAttempts
      · rw [if_pos hm] at h
        cases h
      · rw [if_neg hm] at h
        exact ih q (attempts + 1) reforms run h

theorem retrieveLoop_no_fallback (O : OrchestratorOracles)
    (userId : Option String) (maxAttempts : Nat) :
    ∀ fuel q attempts reforms run, fuel + attempts = maxAttempts →
      1 ≤ fuel →
      retrieveLoop O userId maxAttempts fuel q attempts reforms =
        .ok run →
      run.result.searchStrategy ≠ "max-attempts-reached" := by
  intro fuel
  induction fuel with
  | zero =>
    intro q attempts reforms run _ h1
    exact absurd h1 (by omega)
  | succ f ih =>
    intro q attempts reforms run hsum _ h
    cases hb : attemptBody O userId maxAttempts q (attempts + 1) with
    | ok outcome =>
      cases outcome with
      | done r =>
        simp only [retrieveLoop, hb, Except.ok.injEq] at h
        rw [← h]
        show r.searchStrategy ≠ "max-attempts-reached"
        rcases attemptBody_done_main O userId maxAttempts q (attempts + 1)
            r hb with h1 | h1 | h1
        · rw [h1]
          decide
        · rw [h1]
          decide
        · rw [h1.1]
          decide
      | reform q' =>
        simp only [retrieveLoop, hb] at h
        have hlt := attemptBody_reform_lt O userId maxAttempts q
          (attempts + 1) q' hb
        exact ih q' (attempts + 1) (reforms + 1) run (by omega) (by omega) h
      | fallthrough =>
        have hgt := attemptBody_fallthrough_gt O userId maxAttempts q
          (attempts + 1) hb
        exact absurd hgt (by omega)
    | error e =>
      simp only [retrieveLoop, hb] at h
      by_cases hm : attempts + 1 = maxAttempts
      · rw [if_pos hm] at h
        cases h
      · rw [if_neg hm] at h
        have hlt : attempts + 1 < maxAttempts := by omega
        exact ih q (attempts + 1) reforms run (by omega) (by omega) h

theorem dispatchSearch_zero (O : OrchestratorOracles)
    (userId : Option String) (clientId : Nat) (queryType : String)
    (q : String)
    (hsearch : ∀ s c t, O.search s c t = .ok [])
    (hnot : queryType ≠ "transcript_then_document")
    (htr : queryType = "transcript" → optStrTruthy userId = true) :
    dispatchSearch O userId clientId queryType q = .ok (Sum.inr []) := by
  unfold dispatchSearch
  by_cases h1 : queryType = "document"
  · simp [h1, hsearch, Except.map]
  by_cases h2 : queryType = "transcript"
  · have huid := htr h2
    simp [h1, h2, huid, hsearch, Except.map]
  by_cases h3 : queryType = "document_then_transcript"
  · simp [h1, h2, h3, hsearch, Except.map]
  · simp [h1, h2, h3, hnot, hsearch, Except.map]

theorem attemptBody_zeroSearch (O : OrchestratorOracles)
    (userId : Option String) (maxAttempts : Nat) (q : String) (a : Nat)
    (hembed : O.embedQuery q = .ok ())
    (hsearch : ∀ s c t, O.search s c t = .ok [])
    (hnot : (O.analyzeQueryIntent q).queryType ≠ "transcript_then_document")
    (htr : (O.analyzeQueryIntent q).queryType = "transcript" →
      optStrTruthy userId = true) :
    attemptBody O userId maxAttempts q a =
      if a < maxAttempts then .ok (.reform (O.reformulateQuery q a))
      else .ok (.done failedResult) := by
  have hd := dispatchSearch_zero O userId (clientIdOf userId)
    (O.analyzeQueryIntent q).queryType q hsearch hnot htr
  simp only [attemptBody, hembed, hd, toHybrid, List.map_nil,
    List.length_nil, if_true]

theorem dispatchSearch_nonempty (O : OrchestratorOracles)
    (userId : Option String) (clientId : Nat) (queryType : String)
    (q : String)
    (hsearch : ∀ s c t, ∃ x xs, O.search s c t = .ok (x :: xs))
    (huid : optStrTruthy userId = true) :
    ∃ l, dispatchSearch O userId clientId queryType q = .ok (Sum.inr l) ∧
      l ≠ [] := by
  unfold dispatchSearch
  by_cases h1 : queryType = "document"
  · obtain ⟨x, xs, hs⟩ := hsearch q 0 CorpusType.documents
    exact ⟨x :: xs, by simp [h1, hs, Except.map], by simp⟩
  by_cases h2 : queryType = "transcript"
  · obtain ⟨x, xs, hs⟩ := hsearch q clientId CorpusType.transcripts
    exact ⟨x :: xs, by simp [h1, h2, huid, hs, Except.map], by simp⟩
  by_cases h3 : queryType = "document_then_transcript"
  · obtain ⟨x, xs, hs1⟩ := hsearch q 0 CorpusType.documents
    obtain ⟨y, ys, hs2⟩ := hsearch
      (q ++ " evidence of: " ++ strTake (joinContents (x :: xs)) 500)
      clientId CorpusType.transcripts
    refine ⟨List.take 2 (x :: xs) ++ (y :: ys), ?_, by simp⟩
    simp [h1, h2, h3, huid, hs1, hs2]
  by_cases h4 : queryType = "transcript_then_document"
  · obtain ⟨x, xs, hs1⟩ := hsearch q clientId CorpusType.transcripts
    obtain ⟨y, ys, hs2⟩ := hsearch
      (q ++ " for client situation: " ++
        strTake (joinContents (x :: xs)) 500)
      0 CorpusType.documents
    refine ⟨List.take 2 (x :: xs) ++ (y :: ys), ?_, by simp⟩
    simp [h1, h2, h3, h4, huid, hs1, hs2]
  · by_cases h5 : strIncludes (strLower q) "recommend" = true ∨
        strIncludes (strLower q) "suggest" = true ∨
        strIncludes (strLower q) "program" = true
    · obtain ⟨x, xs, hs1⟩ := hsearch
        (userId.getD "" ++
          " client background needs goals progress treatment status situation")
        clientId CorpusType.transcripts
      obtain ⟨y, ys, hs2⟩ := hsearch
        (q ++ " for client with: " ++ strTake (joinContents (x :: xs)) 500)
        0 CorpusType.documents
      refine ⟨List.take 2 (x :: xs) ++ (y :: ys), ?_, by simp⟩
      simp [h1, h2, h3, h4, huid, h5, hs1, hs2]
    · obtain ⟨x, xs, hs1⟩ := hsearch q 0 CorpusType.documents
      obtain ⟨y, ys, hs2⟩ := hsearch q clientId CorpusType.transcripts
      refine ⟨(x :: xs) ++ (y :: ys), ?_, by simp⟩
      simp [h1, h2, h3, h4, huid, h5, hs1, hs2]

theorem attemptBody_nonempty_notRelevant (O : OrchestratorOracles)
    (userId : Option String) (maxAttempts : Nat) (q : String) (a : Nat)
    (hembed : O.embedQuery q = .ok ())
    (hsearch : ∀ s c t, ∃ x xs, O.search s c t = .ok (x :: xs))
    (huid : optStrTruthy userId = true)
    (hverify : ∀ chunks s, O.verifyRelevance chunks s = false)
    (ha : a ≤ maxAttempts) :
    attemptBody O userId maxAttempts q a =
      if a < maxAttempts then .ok (.reform (O.reformulateQuery q a))
      else .ok (.done ⟨"", 0, [], "max-attempts-non-relevant"⟩) := by
  obtain ⟨l, hd, hne⟩ := dispatchSearch_nonempty O userId
    (clientIdOf userId) (O.analyzeQueryIntent q).queryType q hsearch huid
  have hlen : ¬((toHybrid l).length = 0) := by
    simp [toHybrid, hne]
  simp only [attemptBody, hembed, hd]
  rw [if_neg hlen, hverify, if_neg (by simp)]
  by_cases hlt : a < maxAttempts
  · rw [if_pos hlt, if_pos hlt]
  · rw [if_neg hlt, if_neg hlt, if_pos (show a = maxAttempts by omega)]

/-- Base concrete oracles: intent always `qt`, collaborators always
succeed, search finds nothing, verification always fails. -/
def baseOracles (qt : String) : OrchestratorOracles :=
  { analyzeQueryIntent := fun _ => ⟨qt, 1⟩,
    embedQuery := fun _ => .ok (),
    search := fun _ _ _ => .ok [],
    docRetriever := none,
    verifyRelevance := fun _ _ => false,
    reformulateQuery := fun s _ => s,
    chatComplete := fun _ => .ok "" }

/-- A single transcript search hit. -/
def oneResult : SearchResult :=
  ⟨⟨"chunk text", { source := some "s1", chunkType := "transcript" }⟩,
    1, "semantic"⟩

/-- Like `baseOracles`, but every search returns the one hit. -/
def nonRelOracles (qt : String) : OrchestratorOracles :=
  { baseOracles qt with search := fun _ _ _ => .ok [oneResult] }

/-- C2 (amended): if the collaborators never fail, every search returns
zero candidates, and the intent analysis never classifies the (possibly
reformulated) query as `transcript_then_document`, nor as `transcript`
unless the userId is truthy (each of those returns 'failed' early — see
the counterexample), then the orchestrator runs exactly `maxAttempts`
attempts with `maxAttempts - 1` reformulations and returns the empty
'failed' result. -/
theorem retry_bound_zero_results
    (O : OrchestratorOracles) (query : String) (userId : Option String)
    (maxAttempts : Nat)
    (hmax : 1 ≤ maxAttempts)
    (hembed : ∀ s, O.embedQuery s = .ok ())
    (hsearch : ∀ s c t, O.search s c t = .ok [])
    (hnot : ∀ s,
      (O.analyzeQueryIntent s).queryType ≠ "transcript_then_document")
    (htr : ∀ s, (O.analyzeQueryIntent s).queryType = "transcript" →
      optStrTruthy userId = true) :
    retrieveRun O query userId maxAttempts =
      .ok ⟨failedResult, maxAttempts, maxAttempts - 1⟩ := by
  have h := retrieveLoop_uniform O userId maxAttempts failedResult
    (fun s a _ => attemptBody_zeroSearch O userId maxAttempts s (a + 1)
      (hembed s) hsearch (hnot s) (htr s))
    maxAttempts query 0 0 (by omega) hmax
  simpa [retrieveRun] using h

/-- Counterexample to C2 as stated: with intent
`transcript_then_document` and zero transcript results, the orchestrator
returns 'failed' after one attempt, not after `maxAttempts = 3`. -/
theorem retry_bound_zero_results_counterexample :
    retrieveRun (baseOracles "transcript_then_document") "q"
      (some "nathan") 3 = .ok ⟨failedResult, 1, 0⟩ ∧ (1 : Nat) ≠ 3 :=
  ⟨rfl, by decide⟩

/-- Witness for (amended) C2. -/
theorem retry_bound_zero_results_witness :
    retrieveRun (baseOracles "document") "q" none 3 =
      .ok ⟨failedResult, 3, 2⟩ :=
  retry_bound_zero_results (baseOracles "document") "q" none 3
    (by decide) (fun _ => rfl) (fun _ _ _ => rfl)
    (fun _ hc => absurd
      (show ("document" : String) = "transcript_then_document" from hc)
      (by decide))
    (fun _ h => absurd (show ("document" : String) = "transcript" from h)
      (by decide))

/-- C3 (amended): (a) with a verification gate that always fails, every
successful run returns empty content; (b) with additionally a truthy
userId and collaborators that always succeed with non-empty candidate
sets, the run takes exactly `maxAttempts` attempts and returns the
'max-attempts-non-relevant' result. Without a userId, a transcript-typed
intent instead fails on attempt 1 — see the counterexample. -/
theorem verification_gate_blocks_content :
    (∀ (O : OrchestratorOracles) (query : String) (userId : Option String)
        (maxAttempts : Nat) (run : OrchestratorRun),
      (∀ chunks s, O.verifyRelevance chunks s = false) →
      retrieveRun O query userId maxAttempts = .ok run →
      run.result.content = "") ∧
    (∀ (O : OrchestratorOracles) (query : String) (userId : Option String)
        (maxAttempts : Nat),
      1 ≤ maxAttempts → optStrTruthy userId = true →
      (∀ s, O.embedQuery s = .ok ()) →
      (∀ s c t, ∃ x xs, O.search s c t = .ok (x :: xs)) →
      (∀ chunks s, O.verifyRelevance chunks s = false) →
      retrieveRun O query userId maxAttempts =
        .ok ⟨⟨"", 0, [], "max-attempts-non-relevant"⟩, maxAttempts,
          maxAttempts - 1⟩) := by
  constructor
  · intro O query userId maxAttempts run hverify h
    exact retrieveLoop_content_empty O userId maxAttempts hverify
      maxAttempts query 0 0 run h
  · intro O query userId maxAttempts hmax huid hembed hsearch hverify
    have h := retrieveLoop_uniform O userId maxAttempts
      ⟨"", 0, [], "max-attempts-non-relevant"⟩
      (fun s a ha => attemptBody_nonempty_notRelevant O userId maxAttempts
        s (a + 1) (hembed s) hsearch huid hverify ha)
      maxAttempts query 0 0 (by omega) hmax
    simpa [retrieveRun] using h

/-- Counterexample to C3 as stated: searches would return a non-empty
candidate set and verification always fails, yet with no userId and a
`transcript` intent the run ends after one attempt with strategy
'failed', not after `maxAttempts = 3` with 'max-attempts-non-relevant'. -/
theorem verification_gate_blocks_content_counterexample :
    retrieveRun (nonRelOracles "transcript") "q" none 3 =
      .ok ⟨failedResult, 1, 0⟩ ∧
    failedResult.searchStrategy = "failed" ∧
    "failed" ≠ "max-attempts-non-relevant" ∧ (1 : Nat) ≠ 3 :=
  ⟨rfl, rfl, by decide, by decide⟩

/-- Witness for (amended) C3. -/
theorem verification_gate_blocks_content_witness :
    retrieveRun (nonRelOracles "transcript") "q" (some "nathan") 3 =
      .ok ⟨⟨"", 0, [], "max-attempts-non-relevant"⟩, 3, 2⟩ :=
  verification_gate_blocks_content.2 (nonRelOracles "transcript") "q"
    (some "nathan") 3 (by decide) (by decide) (fun _ => rfl)
    (fun _ _ _ => ⟨oneResult, [], rfl⟩) (fun _ _ => rfl)

/-- C4: a transcript-typed intent (`transcript` or
`transcript_then_document`) without a client identifier returns the
empty 'failed' result on the first attempt, with no reformulation and no
retry. -/
theorem transcript_without_user_fails_fast
    (O : OrchestratorOracles) (query : String) (userId : Option String)
    (maxAttempts : Nat)
    (hmax : 1 ≤ maxAttempts)
    (huid : optStrTruthy userId = false)
    (hembed : O.embedQuery query = .ok ())
    (hqt : (O.analyzeQueryIntent query).queryType = "transcript" ∨
      (O.analyzeQueryIntent query).queryType = "transcript_then_document") :
    retrieveRun O query userId maxAttempts = .ok ⟨failedResult, 1, 0⟩ := by
  obtain ⟨n, rfl⟩ : ∃ n, maxAttempts = n + 1 := ⟨maxAttempts - 1, by omega⟩
  have hdisp : dispatchSearch O userId (clientIdOf userId)
      (O.analyzeQueryIntent query).queryType query =
      .ok (Sum.inl failedResult) := by
    unfold dispatchSearch
    rcases hqt with h | h
    · simp [h, huid,
        show ("transcript" : String) ≠ "document" from by decide]
    · simp [h, huid,
        show ("transcript_then_document" : String) ≠ "document" from
          by decide,
        show ("transcript_then_document" : String) ≠ "transcript" from
          by decide,
        show ("transcript_then_document" : String) ≠
          "document_then_transcript" from by decide]
  have hbody : attemptBody O userId (n + 1) query (0 + 1) =
      .ok (.done failedResult) := by
    simp only [attemptBody, hembed, hdisp]
  show retrieveLoop O userId (n + 1) (n + 1) query 0 0 = _
  rw [show retrieveLoop O userId (n + 1) (n + 1) query 0 0 =
      match attemptBody O userId (n + 1) query (0 + 1) with
      | .ok (.done r) => .ok ⟨r, 0 + 1, 0⟩
      | .ok (.reform q') =>
          retrieveLoop O userId (n + 1) n q' (0 + 1) (0 + 1)
      | .ok .fallthrough => retrieveLoop O userId (n + 1) n query (0 + 1) 0
      | .error e =>
          if 0 + 1 = n + 1 then .error e
          else retrieveLoop O userId (n + 1) n query (0 + 1) 0
    from rfl, hbody]

/-- Witness for C4. -/
theorem transcript_without_user_fails_fast_witness :
    retrieveRun (baseOracles "transcript") "q" none 3 =
      .ok ⟨failedResult, 1, 0⟩ :=
  transcript_without_user_fails_fast (baseOracles "transcript") "q" none 3
    (by decide) rfl rfl (Or.inl rfl)

/-- C10 (amended): for `maxAttempts ≥ 1` no successful run carries the
post-loop 'max-attempts-reached' strategy — every iteration returns,
rethrows at the bound, or continues with the attempt budget not yet
exhausted. The fallback is reachable exactly when `maxAttempts = 0` (see
the counterexample). -/
theorem no_max_attempts_reached
    (O : OrchestratorOracles) (query : String) (userId : Option String)
    (maxAttempts : Nat) (run : OrchestratorRun)
    (hmax : 1 ≤ maxAttempts)
    (h : retrieveRun O query userId maxAttempts = .ok run) :
    run.result.searchStrategy ≠ "max-attempts-reached" :=
  retrieveLoop_no_fallback O userId maxAttempts maxAttempts query 0 0 run
    (by omega) hmax h

/-- Counterexample to C10 as stated: at `maxAttempts = 0` the loop body
never runs and the post-loop 'max-attempts-reached' fallback is
returned. -/
theorem no_max_attempts_reached_counterexample :
    retrieveRun (baseOracles "document") "q" none 0 =
      .ok ⟨⟨"", 0, [], "max-attempts-reached"⟩, 0, 0⟩ := rfl

/-- Witness for (amended) C10. -/
theorem no_max_attempts_reached_witness :
    failedResult.searchStrategy ≠ "max-attempts-reached" :=
  no_max_attempts_reached (baseOracles "document") "q" none 1
    ⟨failedResult, 1, 0⟩ (by decide) rfl
